import Mathlib

/-!
Verification development for the spherical-monitor projection core
(src/spherical_monitor.cpp).

The C++ source computes in single-precision floats with a literal
approximation of pi; this embedding idealises all arithmetic to the real
numbers (float variables become reals, the pi literal becomes the real pi,
atan2 becomes Complex.arg, asin becomes Real.arcsin).  Environment-variable
reads are modelled as Option-valued parameters.  Control flow, constants,
branch order and iteration counts are translated literally.
-/

open Real Set

open scoped Classical

namespace SphericalMonitor

/-- Embeds the C++ constant SPHERE_RADIUS = 5.0f. -/
noncomputable def SPHERE_RADIUS : ℝ := 5

/-- Embeds enum class ProjectionMode. -/
inductive ProjectionMode where
  | Sphere
  | SphereClamp
  | Cylinder
  | Morph
deriving DecidableEq

/-- Embeds struct Vec3 (float x, y, z). -/
structure Vec3 where
  x : ℝ
  y : ℝ
  z : ℝ

/-- Embeds clamp01: std::clamp(x, 0.0f, 1.0f). -/
noncomputable def clamp01 (x : ℝ) : ℝ := min (max x 0) 1

/-- Embeds std::clamp on floats. -/
noncomputable def rclamp (x lo hi : ℝ) : ℝ := min (max x lo) hi

/-- Embeds std::clamp on ints (used for the capture-pixel clamp). -/
def intClamp (v lo hi : ℤ) : ℤ := min (max v lo) hi

/-- Embeds static_cast to int of a float: truncation toward zero. -/
noncomputable def truncToInt (x : ℝ) : ℤ := if 0 ≤ x then ⌊x⌋ else ⌈x⌉

/-- Embeds normalize(v): v/|v|, with the (0,0,-1) fallback for |v| <= 0. -/
noncomputable def normalize (v : Vec3) : Vec3 :=
  let len := Real.sqrt (v.x * v.x + v.y * v.y + v.z * v.z)
  if len ≤ 0 then ⟨0, 0, -1⟩ else ⟨v.x / len, v.y / len, v.z / len⟩

/-- Embeds rotateX(v, deg). -/
noncomputable def rotateX (v : Vec3) (deg : ℝ) : Vec3 :=
  let a := deg * π / 180
  ⟨v.x, Real.cos a * v.y - Real.sin a * v.z, Real.sin a * v.y + Real.cos a * v.z⟩

/-- Embeds rotateY(v, deg). -/
noncomputable def rotateY (v : Vec3) (deg : ℝ) : Vec3 :=
  let a := deg * π / 180
  ⟨Real.cos a * v.x + Real.sin a * v.z, v.y, -Real.sin a * v.x + Real.cos a * v.z⟩

/-- Embeds std::atan2(y, x): the angle of the point (x, y) in (-pi, pi]. -/
noncomputable def atan2 (y x : ℝ) : ℝ := Complex.arg (x + y * Complex.I)

/-- Embeds the wrap applied after every atan2 call: if (phi < 0) phi += 2*pi. -/
noncomputable def wrapPhi (phi : ℝ) : ℝ := if phi < 0 then phi + 2 * π else phi

/-- Embeds the morph generating-curve radius r(theta) = (1-s)*1 + s*cos(theta). -/
noncomputable def morphR (s θ : ℝ) : ℝ := (1 - s) * 1 + s * Real.cos θ

/-- Embeds the morph generating-curve height y(theta) = (1-s)*theta + s*sin(theta). -/
noncomputable def morphY (s θ : ℝ) : ℝ := (1 - s) * θ + s * Real.sin θ

/-- Embeds the local lambda f in dirToUV_Morph: dy * r(theta) - dxz * y(theta). -/
noncomputable def morphF (s dy dxz θ : ℝ) : ℝ := dy * morphR s θ - dxz * morphY s θ

/-- Embeds the bisection loop of dirToUV_Morph, with the iteration count as
fuel.  The cached values flo, fhi in the source always equal f(lo), f(hi), so
only the interval is tracked. -/
noncomputable def bisect (f : ℝ → ℝ) : ℕ → ℝ → ℝ → ℝ × ℝ
  | 0, lo, hi => (lo, hi)
  | n + 1, lo, hi =>
      let mid := (lo + hi) / 2
      if (0 < f lo ∧ 0 < f mid) ∨ (f lo < 0 ∧ f mid < 0) then
        bisect f n mid hi
      else
        bisect f n lo mid

/-- Embeds dirToUV_Morph. -/
noncomputable def dirToUV_Morph (dirWorld : Vec3) (sphericity : ℝ) : Option (ℝ × ℝ) :=
  let s := clamp01 sphericity
  let dxz := Real.sqrt (dirWorld.x * dirWorld.x + dirWorld.z * dirWorld.z)
  if dxz < 1e-6 then none
  else
    let u := wrapPhi (atan2 dirWorld.z dirWorld.x) / (2 * π)
    let f := morphF s dirWorld.y dxz
    let lo := -(π / 2) + 1e-4
    let hi := π / 2 - 1e-4
    if f lo = 0 then some (u, 1 - ((lo + π / 2) / π))
    else if f hi = 0 then some (u, 1 - ((hi + π / 2) / π))
    else if (0 < f lo ∧ 0 < f hi) ∨ (f lo < 0 ∧ f hi < 0) then none
    else
      let p := bisect f 40 lo hi
      let theta := (p.1 + p.2) / 2
      some (u, 1 - ((theta + π / 2) / π))

/-- Embeds the Sphere branch of viewMouseToCaptureXY (always succeeds). -/
noncomputable def dirToUV_Sphere (d : Vec3) : ℝ × ℝ :=
  let y := rclamp d.y (-1) 1
  let theta := Real.arcsin y
  let phi := wrapPhi (atan2 d.z d.x)
  (phi / (2 * π), 1 - ((theta + π / 2) / π))

/-- Embeds the SphereClamp branch of viewMouseToCaptureXY. -/
noncomputable def dirToUV_SphereClamp (d : Vec3) (tmax : ℝ) : Option (ℝ × ℝ) :=
  let y := rclamp d.y (-1) 1
  let theta := Real.arcsin y
  let phi := wrapPhi (atan2 d.z d.x)
  if theta < -tmax ∨ theta > tmax then none
  else some (phi / (2 * π), 1 - ((theta + tmax) / (2 * tmax)))

/-- Embeds the Cylinder branch of viewMouseToCaptureXY. -/
noncomputable def dirToUV_Cylinder (d : Vec3) : Option (ℝ × ℝ) :=
  let dxz := Real.sqrt (d.x * d.x + d.z * d.z)
  if dxz < 1e-6 then none
  else
    let t := SPHERE_RADIUS / dxz
    let px := d.x * t
    let py := d.y * t
    let pz := d.z * t
    let u := wrapPhi (atan2 pz px) / (2 * π)
    let theta := py / SPHERE_RADIUS
    if theta < -(π / 2) ∨ theta > π / 2 then none
    else some (u, 1 - ((theta + π / 2) / π))

/-- Embeds the mode dispatch of the inverse (ray to UV) part of
viewMouseToCaptureXY. -/
noncomputable def rayToUV (m : ProjectionMode) (sphericity tmax : ℝ) (d : Vec3) :
    Option (ℝ × ℝ) :=
  match m with
  | .Morph => dirToUV_Morph d sphericity
  | .Cylinder => dirToUV_Cylinder d
  | .SphereClamp => dirToUV_SphereClamp d tmax
  | .Sphere => some (dirToUV_Sphere d)

/-- Embeds the camera state (globals g_yawDeg, g_pitchDeg, g_fovYDeg,
g_sphericity, g_projectionMode). -/
structure LoopState where
  yawDeg : ℝ
  pitchDeg : ℝ
  fovYDeg : ℝ
  sphericity : ℝ
  mode : ProjectionMode

/-- Embeds the view-ray reconstruction in viewMouseToCaptureXY: pointer
position to normalized camera-space ray to world-space direction. -/
noncomputable def viewRayWorld (yaw pitch fov : ℝ) (winW winH fbW fbH : ℤ)
    (xpos ypos : ℝ) : Vec3 :=
  let sx := (fbW : ℝ) / (winW : ℝ)
  let sy := (fbH : ℝ) / (winH : ℝ)
  let mx := xpos * sx
  let my := ypos * sy
  let ndcX := 2 * (mx + 0.5) / (fbW : ℝ) - 1
  let ndcY := 1 - 2 * (my + 0.5) / (fbH : ℝ)
  let aspect := (fbW : ℝ) / (fbH : ℝ)
  let tanHalfFovY := Real.tan (fov * 0.5 * π / 180)
  let dirCam := normalize ⟨ndcX * tanHalfFovY * aspect, ndcY * tanHalfFovY, -1⟩
  normalize (rotateY (rotateX dirCam pitch) yaw)

/-- Embeds viewMouseToCaptureXY up to and including the UV computation: the
dimension guards, the view ray, and the per-mode inverse mapping. -/
noncomputable def uvStage (st : LoopState) (tmax : ℝ) (capW capH winW winH fbW fbH : ℤ)
    (xpos ypos : ℝ) : Option (ℝ × ℝ) :=
  if capW ≤ 0 ∨ capH ≤ 0 then none
  else if fbW ≤ 0 ∨ fbH ≤ 0 ∨ winW ≤ 0 ∨ winH ≤ 0 then none
  else rayToUV st.mode st.sphericity tmax
    (viewRayWorld st.yawDeg st.pitchDeg st.fovYDeg winW winH fbW fbH xpos ypos)

/-- Embeds the UV-to-capture-pixel step of viewMouseToCaptureXY:
cx = (int)(u * width) clamped to [0, max(0, width-1)], same for cy. -/
noncomputable def pixelOfUV (capW capH : ℤ) (uv : ℝ × ℝ) : ℤ × ℤ :=
  (intClamp (truncToInt (uv.1 * (capW : ℝ))) 0 (max 0 (capW - 1)),
   intClamp (truncToInt (uv.2 * (capH : ℝ))) 0 (max 0 (capH - 1)))

/-- Embeds viewMouseToCaptureXY as a whole. -/
noncomputable def viewMouseToCaptureXY (st : LoopState) (tmax : ℝ)
    (capW capH winW winH fbW fbH : ℤ) (xpos ypos : ℝ) : Option (ℤ × ℤ) :=
  (uvStage st tmax capW capH winW winH fbW fbH xpos ypos).map (pixelOfUV capW capH)

/-- Embeds the forward surface parameterization evaluated by the mesh
generators at a ring angle theta and sector azimuth phi: the vertex position
of drawTexturedSphere / drawTexturedSphereClamped (same position formula) /
drawTexturedCylinder (height y = R*theta) / drawTexturedMorph. -/
noncomputable def forwardPos (m : ProjectionMode) (sphericity θ φ : ℝ) : Vec3 :=
  match m with
  | .Sphere =>
      ⟨SPHERE_RADIUS * Real.cos θ * Real.cos φ, SPHERE_RADIUS * Real.sin θ,
       SPHERE_RADIUS * Real.cos θ * Real.sin φ⟩
  | .SphereClamp =>
      ⟨SPHERE_RADIUS * Real.cos θ * Real.cos φ, SPHERE_RADIUS * Real.sin θ,
       SPHERE_RADIUS * Real.cos θ * Real.sin φ⟩
  | .Cylinder =>
      ⟨SPHERE_RADIUS * Real.cos φ, SPHERE_RADIUS * θ, SPHERE_RADIUS * Real.sin φ⟩
  | .Morph =>
      ⟨(1 - sphericity) * (SPHERE_RADIUS * Real.cos φ) +
         sphericity * (SPHERE_RADIUS * Real.cos θ * Real.cos φ),
       (1 - sphericity) * (SPHERE_RADIUS * θ) + sphericity * (SPHERE_RADIUS * Real.sin θ),
       (1 - sphericity) * (SPHERE_RADIUS * Real.sin φ) +
         sphericity * (SPHERE_RADIUS * Real.cos θ * Real.sin φ)⟩

/-- Embeds the forward texture u coordinate: u = phi / (2*pi) in every mode. -/
noncomputable def forwardU (φ : ℝ) : ℝ := φ / (2 * π)

/-- Embeds the forward texture v coordinate per mode; SphereClamp applies the
std::clamp(thetaMaxRad, 0.01, pi/2 - 0.001) from drawTexturedSphereClamped. -/
noncomputable def forwardV (m : ProjectionMode) (tmax θ : ℝ) : ℝ :=
  match m with
  | .SphereClamp =>
      let tm := rclamp tmax 0.01 (π / 2 - 0.001)
      1 - ((θ + tm) / (2 * tm))
  | _ => 1 - ((θ + π / 2) / π)

/-- Valid forward domain per mode: azimuth in [0, 2*pi); ring angle in the
range swept by the mode's mesh, with the degenerate poles (where azimuth is
not recoverable from the position) excluded for Sphere, and the root-solver
window [-pi/2 + 1e-4, pi/2 - 1e-4] for Morph. -/
def validDomain (m : ProjectionMode) (tmax θ φ : ℝ) : Prop :=
  φ ∈ Ico 0 (2 * π) ∧
  match m with
  | .Sphere => θ ∈ Ioo (-(π / 2)) (π / 2)
  | .SphereClamp => θ ∈ Icc (-tmax) tmax
  | .Cylinder => θ ∈ Icc (-(π / 2)) (π / 2)
  | .Morph => θ ∈ Ioo (-(π / 2) + 1e-4) (π / 2 - 1e-4)

/-- Embeds the texture coordinate (u1, v1_tex) emitted by drawTexturedSphere
for loop indices (r, sIdx): u = sIdx/sectors, phi = u*2*pi, v1 = r/rings,
theta1 = v1*pi - pi/2, emitting (phi/(2*pi), 1 - (theta1 + pi/2)/pi). -/
noncomputable def sphereMeshUV1 (rings sectors r sIdx : ℕ) : ℝ × ℝ :=
  let v1 := (r : ℝ) / (rings : ℝ)
  let theta1 := v1 * π - π / 2
  let u := (sIdx : ℝ) / (sectors : ℝ)
  let phi := u * (2 * π)
  (phi / (2 * π), 1 - ((theta1 + π / 2) / π))

/-- Embeds parseSphericityFromEnv; the SPHERICITY environment string (parsed
by atof) is modelled as an optional real. -/
noncomputable def parseSphericityFromEnv (envVal : Option ℝ) : ℝ :=
  let s := match envVal with
    | none => 1
    | some v => v
  if s < 0 then 0 else if s > 1 then 1 else s

/-- Embeds sphereClampThetaMaxRad; the SPHERE_THETA_MAX_DEG environment
string (parsed by atof) is modelled as an optional real. -/
noncomputable def sphereClampThetaMaxRadOf (envVal : Option ℝ) : ℝ :=
  let deg : ℝ := match envVal with
    | none => 80
    | some v => v
  let deg1 := if deg < 1 then 1 else deg
  let deg2 := if deg1 > 89.9 then 89.9 else deg1
  deg2 * π / 180

/-- Embeds the P-key mode cycle in main. -/
def cycleMode : ProjectionMode → ProjectionMode
  | .Sphere => .SphereClamp
  | .SphereClamp => .Cylinder
  | .Cylinder => .Morph
  | .Morph => .Sphere

/-- Embeds the loop-local static wasDown flags for the edge-triggered keys. -/
structure KeyFlags where
  wWas : Bool
  sWas : Bool
  qWas : Bool
  eWas : Bool
  pWas : Bool

/-- Embeds the per-frame key readout (glfwGetKey results). -/
structure Keys where
  left : Bool
  right : Bool
  up : Bool
  down : Bool
  w : Bool
  s : Bool
  q : Bool
  e : Bool
  p : Bool

/-- Embeds one pass of the per-frame key-handling block of main (arrow keys,
W/S sphericity, Q/E zoom, P mode cycle), in source order.  ROT_SPEED = 3. -/
noncomputable def frameUpdate (st : LoopState) (fl : KeyFlags) (k : Keys) :
    LoopState × KeyFlags :=
  let yaw1 := if k.left then st.yawDeg + 3 else st.yawDeg
  let yaw2 := if k.right then yaw1 - 3 else yaw1
  let pitch1 := if k.up then
      (let p1 := st.pitchDeg + 3; if p1 > 89 then 89 else p1)
    else st.pitchDeg
  let pitch2 := if k.down then
      (let p2 := pitch1 - 3; if p2 < -89 then -89 else p2)
    else pitch1
  let wEdge := k.w ∧ ¬fl.wWas
  let modeW := if wEdge then ProjectionMode.Morph else st.mode
  let sphW := if wEdge then clamp01 (st.sphericity + 0.1) else st.sphericity
  let sEdge := k.s ∧ ¬fl.sWas
  let modeS := if sEdge then ProjectionMode.Morph else modeW
  let sphS := if sEdge then clamp01 (sphW - 0.1) else sphW
  let fov1 := if k.q ∧ ¬fl.qWas then
      (let f1 := st.fovYDeg - 5; if f1 < 30 then 30 else f1)
    else st.fovYDeg
  let fov2 := if k.e ∧ ¬fl.eWas then
      (let f2 := fov1 + 5; if f2 > 120 then 120 else f2)
    else fov1
  let modeP := if k.p ∧ ¬fl.pWas then cycleMode modeS else modeS
  (⟨yaw2, pitch2, fov2, sphS, modeP⟩, ⟨k.w, k.s, k.q, k.e, k.p⟩)

/-- The camera/surface state invariants claimed by the spec. -/
def stateInv (st : LoopState) : Prop :=
  -89 ≤ st.pitchDeg ∧ st.pitchDeg ≤ 89 ∧
  30 ≤ st.fovYDeg ∧ st.fovYDeg ≤ 120 ∧
  0 ≤ st.sphericity ∧ st.sphericity ≤ 1

/-- Embeds the initial state set up in main: yaw 0, pitch 0, FOV 90, mode and
sphericity from the environment. -/
noncomputable def initState (sphEnv : Option ℝ) (m : ProjectionMode) : LoopState :=
  ⟨0, 0, 90, parseSphericityFromEnv sphEnv, m⟩

/-- Embeds GLFW_MOUSE_BUTTON_LEFT. -/
def GLFW_MOUSE_BUTTON_LEFT : ℕ := 0

/-- Embeds GLFW_RELEASE. -/
def GLFW_RELEASE : ℕ := 0

/-- Embeds GLFW_PRESS. -/
def GLFW_PRESS : ℕ := 1

/-- The externally visible effects of one onMouseButton callback: the pointer
moves and button events injected into the capture, and the resulting
g_leftMouseDown flag. -/
structure MouseEffects where
  moves : List (ℤ × ℤ)
  buttons : List (ℕ × Bool)
  leftDown : Bool

/-- Embeds the onMouseButton callback.  The SPHERE_MOUSE flag is the enabled
parameter, the window-user-pointer null check is capPresent, the cursor
position read by glfwGetCursorPos is (xpos, ypos), and the XTest injections
are recorded as lists. -/
noncomputable def onMouseButton (enabled capPresent : Bool) (st : LoopState) (tmax : ℝ)
    (capW capH winW winH fbW fbH : ℤ) (xpos ypos : ℝ) (button action : ℕ)
    (leftDown0 : Bool) : MouseEffects :=
  if ¬enabled then ⟨[], [], leftDown0⟩
  else if button ≠ GLFW_MOUSE_BUTTON_LEFT then ⟨[], [], leftDown0⟩
  else if ¬capPresent then ⟨[], [], leftDown0⟩
  else
    match viewMouseToCaptureXY st tmax capW capH winW winH fbW fbH xpos ypos with
    | none =>
        ⟨[], [],
         if action = GLFW_PRESS then true
         else if action = GLFW_RELEASE then false
         else leftDown0⟩
    | some c =>
        ⟨[c],
         if action = GLFW_PRESS then [(1, true)]
         else if action = GLFW_RELEASE then [(1, false)]
         else [],
         if action = GLFW_PRESS then true
         else if action = GLFW_RELEASE then false
         else leftDown0⟩

/-- Auxiliary for the morph analysis (not from the source): the slope
y(theta)/r(theta) of the generating curve, strictly monotone where r > 0. -/
noncomputable def morphSlope (s θ : ℝ) : ℝ := morphY s θ / morphR s θ

theorem clamp01_of_mem {x : ℝ} (h : x ∈ Icc (0 : ℝ) 1) : clamp01 x = x := by
  unfold clamp01
  rw [max_eq_left h.1, min_eq_left h.2]

theorem rclamp_eq_self {x lo hi : ℝ} (h1 : lo ≤ x) (h2 : x ≤ hi) : rclamp x lo hi = x := by
  unfold rclamp
  rw [max_eq_left h1, min_eq_left h2]

theorem wrapPhi_atan2_mem (y x : ℝ) : wrapPhi (atan2 y x) ∈ Ico 0 (2 * π) := by
  unfold wrapPhi atan2
  have h1 := Complex.neg_pi_lt_arg (↑x + ↑y * Complex.I)
  have h2 := Complex.arg_le_pi (↑x + ↑y * Complex.I)
  have hπ := Real.pi_pos
  split_ifs with h
  · exact ⟨by linarith, by linarith⟩
  · exact ⟨le_of_not_lt h, by linarith⟩

theorem atan2_scaled_cos_sin {c φ : ℝ} (hc : 0 < c) (hφ : φ ∈ Ioc (-π) π) :
    atan2 (c * Real.sin φ) (c * Real.cos φ) = φ := by
  unfold atan2
  have h : ((c * Real.cos φ : ℝ) : ℂ) + (c * Real.sin φ : ℝ) * Complex.I =
      (c : ℂ) * ((Real.cos φ : ℝ) + (Real.sin φ : ℝ) * Complex.I) := by
    push_cast
    ring
  rw [h, Complex.arg_real_mul _ hc, Complex.ofReal_cos, Complex.ofReal_sin,
    Complex.arg_cos_add_sin_mul_I hφ]

theorem wrapPhi_atan2_recover {c φ : ℝ} (hc : 0 < c) (h0 : 0 ≤ φ) (h2 : φ < 2 * π) :
    wrapPhi (atan2 (c * Real.sin φ) (c * Real.cos φ)) = φ := by
  have hπ := Real.pi_pos
  by_cases hle : φ ≤ π
  · rw [atan2_scaled_cos_sin hc ⟨by linarith, hle⟩]
    unfold wrapPhi
    rw [if_neg (not_lt.2 h0)]
  · push_neg at hle
    have hsin : Real.sin φ = Real.sin (φ - 2 * π) := (Real.sin_sub_two_pi φ).symm
    have hcos : Real.cos φ = Real.cos (φ - 2 * π) := (Real.cos_sub_two_pi φ).symm
    rw [hsin, hcos, atan2_scaled_cos_sin hc ⟨by linarith, by linarith⟩]
    unfold wrapPhi
    rw [if_pos (by linarith)]
    ring

theorem normalize_rev {a b φ : ℝ} (ha : 0 < a) :
    normalize ⟨a * Real.cos φ, b, a * Real.sin φ⟩ =
      ⟨a * Real.cos φ / Real.sqrt (a ^ 2 + b ^ 2), b / Real.sqrt (a ^ 2 + b ^ 2),
       a * Real.sin φ / Real.sqrt (a ^ 2 + b ^ 2)⟩ := by
  unfold normalize
  have hpyth := Real.sin_sq_add_cos_sq φ
  have hx : a * Real.cos φ * (a * Real.cos φ) + b * b + a * Real.sin φ * (a * Real.sin φ) =
      a ^ 2 + b ^ 2 := by nlinarith
  have hpos : 0 < Real.sqrt (a ^ 2 + b ^ 2) := Real.sqrt_pos.2 (by positivity)
  simp only [hx]
  rw [if_neg (not_le.2 hpos)]

theorem sqrt_xz_div {a L φ : ℝ} (ha : 0 ≤ a) (hL : 0 < L) :
    Real.sqrt (a * Real.cos φ / L * (a * Real.cos φ / L) +
      a * Real.sin φ / L * (a * Real.sin φ / L)) = a / L := by
  have hpyth := Real.sin_sq_add_cos_sq φ
  have h : a * Real.cos φ / L * (a * Real.cos φ / L) +
      a * Real.sin φ / L * (a * Real.sin φ / L) = (a / L) ^ 2 := by
    field_simp
    linear_combination a ^ 2 * L ^ 2 * hpyth
  rw [h, Real.sqrt_sq (by positivity)]

theorem bisect_bounds (f : ℝ → ℝ) (n : ℕ) : ∀ lo hi : ℝ, lo ≤ hi →
    lo ≤ (bisect f n lo hi).1 ∧ (bisect f n lo hi).1 ≤ (bisect f n lo hi).2 ∧
      (bisect f n lo hi).2 ≤ hi := by
  induction n with
  | zero => intro lo hi h; exact ⟨le_refl _, h, le_refl _⟩
  | succ n ih =>
      intro lo hi h
      have hmid1 : lo ≤ (lo + hi) / 2 := by linarith
      have hmid2 : (lo + hi) / 2 ≤ hi := by linarith
      simp only [bisect]
      split_ifs with hc
      · obtain ⟨h1, h2, h3⟩ := ih ((lo + hi) / 2) hi hmid2
        exact ⟨le_trans hmid1 h1, h2, h3⟩
      · obtain ⟨h1, h2, h3⟩ := ih lo ((lo + hi) / 2) hmid1
        exact ⟨h1, h2, le_trans h3 hmid2⟩

theorem bisect_width (f : ℝ → ℝ) (n : ℕ) : ∀ lo hi : ℝ,
    (bisect f n lo hi).2 - (bisect f n lo hi).1 = (hi - lo) / 2 ^ n := by
  induction n with
  | zero => intro lo hi; simp [bisect]
  | succ n ih =>
      intro lo hi
      simp only [bisect]
      split_ifs with hc
      · rw [ih ((lo + hi) / 2) hi]
        rw [pow_succ]
        ring
      · rw [ih lo ((lo + hi) / 2)]
        rw [pow_succ]
        ring

theorem bisect_sign (f : ℝ → ℝ) (n : ℕ) : ∀ lo hi : ℝ, f lo * f hi ≤ 0 → f lo ≠ 0 →
    f (bisect f n lo hi).1 * f (bisect f n lo hi).2 ≤ 0 ∧
      0 < f (bisect f n lo hi).1 * f lo := by
  induction n with
  | zero => intro lo hi h0 hlo; exact ⟨h0, mul_self_pos.2 hlo⟩
  | succ n ih =>
      intro lo hi h0 hlo
      simp only [bisect]
      split_ifs with hc
      · set mid := (lo + hi) / 2 with hmid
        have hmidne : f mid ≠ 0 := by
          rcases hc with ⟨_, h⟩ | ⟨_, h⟩
          · exact ne_of_gt h
          · exact ne_of_lt h
        have hstep : f mid * f hi ≤ 0 := by
          rcases hc with ⟨h1, h2⟩ | ⟨h1, h2⟩
          · have : f hi ≤ 0 := by nlinarith
            exact mul_nonpos_of_nonneg_of_nonpos (le_of_lt h2) this
          · have : 0 ≤ f hi := by nlinarith
            exact mul_nonpos_of_nonpos_of_nonneg (le_of_lt h2) this
        obtain ⟨ha, hb⟩ := ih mid hi hstep hmidne
        refine ⟨ha, ?_⟩
        rcases hc with ⟨h1, h2⟩ | ⟨h1, h2⟩
        · nlinarith
        · nlinarith
      · have hstep : f lo * f ((lo + hi) / 2) ≤ 0 := by
          rcases lt_or_gt_of_ne hlo with h | h
          · have : 0 ≤ f ((lo + hi) / 2) := by
              by_contra hneg
              push_neg at hneg
              exact hc (Or.inr ⟨h, hneg⟩)
            exact mul_nonpos_of_nonpos_of_nonneg (le_of_lt h) this
          · have : f ((lo + hi) / 2) ≤ 0 := by
              by_contra hpos
              push_neg at hpos
              exact hc (Or.inl ⟨h, hpos⟩)
            exact mul_nonpos_of_nonneg_of_nonpos (le_of_lt h) this
        exact ih lo ((lo + hi) / 2) hstep hlo

theorem bisect_mid_near_root (f : ℝ → ℝ) (hf : Continuous f) (n : ℕ) {lo hi θstar : ℝ}
    (hle : lo ≤ hi) (h0 : f lo * f hi ≤ 0) (hlo : f lo ≠ 0)
    (huniq : ∀ c, c ∈ Icc lo hi → f c = 0 → c = θstar) :
    |((bisect f n lo hi).1 + (bisect f n lo hi).2) / 2 - θstar| ≤ (hi - lo) / 2 ^ n := by
  obtain ⟨hb1, hb2, hb3⟩ := bisect_bounds f n lo hi hle
  have hw := bisect_width f n lo hi
  obtain ⟨hs1, _⟩ := bisect_sign f n lo hi h0 hlo
  set lo' := (bisect f n lo hi).1
  set hi' := (bisect f n lo hi).2
  have hroot : ∃ c ∈ Icc lo' hi', f c = 0 := by
    rcases mul_nonpos_iff.1 hs1 with ⟨h1, h2⟩ | ⟨h1, h2⟩
    · have h03 : (0 : ℝ) ∈ Icc (f hi') (f lo') := ⟨h2, h1⟩
      obtain ⟨c, hc1, hc2⟩ := intermediate_value_Icc' hb2 hf.continuousOn h03
      exact ⟨c, hc1, hc2⟩
    · have h03 : (0 : ℝ) ∈ Icc (f lo') (f hi') := ⟨h1, h2⟩
      obtain ⟨c, hc1, hc2⟩ := intermediate_value_Icc hb2 hf.continuousOn h03
      exact ⟨c, hc1, hc2⟩
  obtain ⟨c, hcmem, hc0⟩ := hroot
  have hcstar : c = θstar :=
    huniq c ⟨le_trans hb1 hcmem.1, le_trans hcmem.2 hb3⟩ hc0
  rw [← hcstar]
  rw [abs_le]
  constructor
  · have := hcmem.2
    nlinarith [hw]
  · have := hcmem.1
    nlinarith [hw]

theorem morphR_pos {s θ : ℝ} (hs : s ∈ Icc (0 : ℝ) 1) (hθ : θ ∈ Ioo (-(π / 2)) (π / 2)) :
    0 < morphR s θ := by
  have hc : 0 < Real.cos θ := Real.cos_pos_of_mem_Ioo hθ
  have hc1 : Real.cos θ ≤ 1 := Real.cos_le_one θ
  obtain ⟨h0, h1⟩ := hs
  unfold morphR
  nlinarith

theorem morphY_mul_sin_nonneg {s θ : ℝ} (hs : s ∈ Icc (0 : ℝ) 1)
    (hθ : θ ∈ Icc (-(π / 2)) (π / 2)) : 0 ≤ morphY s θ * Real.sin θ := by
  have hπ := Real.pi_pos
  obtain ⟨hs0, hs1⟩ := hs
  rcases le_or_lt 0 θ with h | h
  · have hsin : 0 ≤ Real.sin θ := Real.sin_nonneg_of_nonneg_of_le_pi h (by linarith [hθ.2])
    have hy : 0 ≤ morphY s θ := by
      unfold morphY
      have := mul_nonneg (by linarith : (0 : ℝ) ≤ 1 - s) h
      nlinarith
    exact mul_nonneg hy hsin
  · have hsin' : 0 ≤ Real.sin (-θ) :=
      Real.sin_nonneg_of_nonneg_of_le_pi (by linarith) (by linarith [hθ.1])
    have hsin : Real.sin θ ≤ 0 := by
      rw [Real.sin_neg] at hsin'
      linarith
    have hy : morphY s θ ≤ 0 := by
      unfold morphY
      have := mul_nonneg (by linarith : (0 : ℝ) ≤ 1 - s) (by linarith : (0 : ℝ) ≤ -θ)
      nlinarith
    nlinarith

theorem hasDerivAt_morphY (s θ : ℝ) : HasDerivAt (morphY s) ((1 - s) * 1 + s * Real.cos θ) θ := by
  have h1 : HasDerivAt (fun x : ℝ => (1 - s) * x) (1 - s) θ := by
    simpa using (hasDerivAt_id θ).const_mul (1 - s)
  have h2 : HasDerivAt (fun x : ℝ => s * Real.sin x) (s * Real.cos θ) θ :=
    (Real.hasDerivAt_sin θ).const_mul s
  have h := h1.add h2
  have hval : (1 - s) * 1 + s * Real.cos θ = 1 - s + s * Real.cos θ := by ring
  rw [hval]
  exact h

theorem hasDerivAt_morphR (s θ : ℝ) : HasDerivAt (morphR s) (s * -Real.sin θ) θ := by
  have h2 : HasDerivAt (fun x : ℝ => s * Real.cos x) (s * -Real.sin θ) θ :=
    (Real.hasDerivAt_cos θ).const_mul s
  have h := h2.const_add ((1 - s) * 1)
  exact h

theorem hasDerivAt_morphSlope {s θ : ℝ} (hr : morphR s θ ≠ 0) :
    HasDerivAt (morphSlope s)
      ((morphR s θ * morphR s θ + s * (morphY s θ * Real.sin θ)) / morphR s θ ^ 2) θ := by
  have h := (hasDerivAt_morphY s θ).div (hasDerivAt_morphR s θ) hr
  have hval : ((1 - s) * 1 + s * Real.cos θ) * morphR s θ - morphY s θ * (s * -Real.sin θ) =
      morphR s θ * morphR s θ + s * (morphY s θ * Real.sin θ) := by
    unfold morphR
    ring
  rw [hval] at h
  exact h

theorem morphSlope_strictMonoOn {s : ℝ} (hs : s ∈ Icc (0 : ℝ) 1) :
    StrictMonoOn (morphSlope s) (Ioo (-(π / 2)) (π / 2)) := by
  have hcont : ContinuousOn (morphSlope s) (Ioo (-(π / 2)) (π / 2)) := by
    apply ContinuousOn.div
    · apply Continuous.continuousOn
      show Continuous fun θ : ℝ => (1 - s) * θ + s * Real.sin θ
      fun_prop
    · apply Continuous.continuousOn
      show Continuous fun θ : ℝ => (1 - s) * 1 + s * Real.cos θ
      fun_prop
    · intro x hx
      exact (morphR_pos hs hx).ne'
  apply strictMonoOn_of_deriv_pos (convex_Ioo _ _) hcont
  intro x hx
  rw [interior_Ioo] at hx
  rw [(hasDerivAt_morphSlope (morphR_pos hs hx).ne').deriv]
  apply div_pos
  · have h1 : 0 < morphR s x * morphR s x := mul_pos (morphR_pos hs hx) (morphR_pos hs hx)
    have h2 : 0 ≤ s * (morphY s x * Real.sin x) :=
      mul_nonneg hs.1 (morphY_mul_sin_nonneg hs ⟨le_of_lt hx.1, le_of_lt hx.2⟩)
    linarith
  · exact pow_pos (morphR_pos hs hx) 2

theorem morph_root_unique {s dy dxz θ₁ θ₂ : ℝ} (hs : s ∈ Icc (0 : ℝ) 1) (hdxz : 0 < dxz)
    (h₁ : θ₁ ∈ Ioo (-(π / 2)) (π / 2)) (h₂ : θ₂ ∈ Ioo (-(π / 2)) (π / 2))
    (e₁ : morphF s dy dxz θ₁ = 0) (e₂ : morphF s dy dxz θ₂ = 0) : θ₁ = θ₂ := by
  have hr₁ := morphR_pos hs h₁
  have hr₂ := morphR_pos hs h₂
  have g₁ : morphSlope s θ₁ = dy / dxz := by
    unfold morphSlope
    unfold morphF at e₁
    rw [div_eq_div_iff hr₁.ne' hdxz.ne']
    linear_combination -e₁
  have g₂ : morphSlope s θ₂ = dy / dxz := by
    unfold morphSlope
    unfold morphF at e₂
    rw [div_eq_div_iff hr₂.ne' hdxz.ne']
    linear_combination -e₂
  exact (morphSlope_strictMonoOn hs).injOn h₁ h₂ (g₁.trans g₂.symm)

theorem continuous_morphF (s dy dxz : ℝ) : Continuous (morphF s dy dxz) := by
  show Continuous fun θ : ℝ =>
    dy * ((1 - s) * 1 + s * Real.cos θ) - dxz * ((1 - s) * θ + s * Real.sin θ)
  fun_prop

theorem dirToUV_Morph_near (d : Vec3) (s : ℝ) (hs : s ∈ Icc (0 : ℝ) 1)
    (h6 : ¬ Real.sqrt (d.x * d.x + d.z * d.z) < 1e-6)
    {θstar : ℝ} (hθ : θstar ∈ Ioo (-(π / 2)) (π / 2))
    (hroot : morphF s d.y (Real.sqrt (d.x * d.x + d.z * d.z)) θstar = 0)
    (hsign : morphF s d.y (Real.sqrt (d.x * d.x + d.z * d.z)) (-(π / 2) + 1e-4) *
      morphF s d.y (Real.sqrt (d.x * d.x + d.z * d.z)) (π / 2 - 1e-4) < 0) :
    ∃ θmid,
      dirToUV_Morph d s =
        some (wrapPhi (atan2 d.z d.x) / (2 * π), 1 - ((θmid + π / 2) / π)) ∧
      |θmid - θstar| ≤ π / 2 ^ 40 := by
  have hπ := Real.pi_gt_three
  have hdxzpos : (0 : ℝ) < Real.sqrt (d.x * d.x + d.z * d.z) :=
    lt_of_lt_of_le (by norm_num) (not_lt.1 h6)
  have hflo : morphF s d.y (Real.sqrt (d.x * d.x + d.z * d.z)) (-(π / 2) + 1e-4) ≠ 0 := by
    intro h
    rw [h, zero_mul] at hsign
    exact lt_irrefl 0 hsign
  have hfhi : morphF s d.y (Real.sqrt (d.x * d.x + d.z * d.z)) (π / 2 - 1e-4) ≠ 0 := by
    intro h
    rw [h, mul_zero] at hsign
    exact lt_irrefl 0 hsign
  have hns : ¬ ((0 < morphF s d.y (Real.sqrt (d.x * d.x + d.z * d.z)) (-(π / 2) + 1e-4) ∧
        0 < morphF s d.y (Real.sqrt (d.x * d.x + d.z * d.z)) (π / 2 - 1e-4)) ∨
      (morphF s d.y (Real.sqrt (d.x * d.x + d.z * d.z)) (-(π / 2) + 1e-4) < 0 ∧
        morphF s d.y (Real.sqrt (d.x * d.x + d.z * d.z)) (π / 2 - 1e-4) < 0)) := by
    rintro (⟨ha, hb⟩ | ⟨ha, hb⟩) <;> nlinarith
  have hlohi : -(π / 2) + 1e-4 ≤ π / 2 - 1e-4 := by linarith
  have huniq : ∀ c, c ∈ Icc (-(π / 2) + 1e-4) (π / 2 - 1e-4) →
      morphF s d.y (Real.sqrt (d.x * d.x + d.z * d.z)) c = 0 → c = θstar := by
    intro c hc h0
    exact morph_root_unique hs hdxzpos
      ⟨by linarith [hc.1], by linarith [hc.2]⟩ hθ h0 hroot
  have key := bisect_mid_near_root (morphF s d.y (Real.sqrt (d.x * d.x + d.z * d.z)))
    (continuous_morphF _ _ _) 40 hlohi (le_of_lt hsign) hflo huniq
  refine ⟨((bisect (morphF s d.y (Real.sqrt (d.x * d.x + d.z * d.z))) 40
      (-(π / 2) + 1e-4) (π / 2 - 1e-4)).1 +
    (bisect (morphF s d.y (Real.sqrt (d.x * d.x + d.z * d.z))) 40
      (-(π / 2) + 1e-4) (π / 2 - 1e-4)).2) / 2, ?_, ?_⟩
  · simp only [dirToUV_Morph, clamp01_of_mem hs]
    rw [if_neg h6, if_neg hflo, if_neg hfhi, if_neg hns]
  · refine le_trans key ?_
    have h240 : (0 : ℝ) < 2 ^ 40 := by positivity
    rw [div_le_div_iff₀ h240 h240]
    nlinarith

theorem clamp01_mem (x : ℝ) : clamp01 x ∈ Icc (0 : ℝ) 1 := by
  unfold clamp01
  exact ⟨le_min (le_max_right x 0) zero_le_one, min_le_right _ _⟩

theorem atan2_pos_scale {t : ℝ} (ht : 0 < t) (y x : ℝ) : atan2 (y * t) (x * t) = atan2 y x := by
  unfold atan2
  have h : ((x * t : ℝ) : ℂ) + ((y * t : ℝ) : ℂ) * Complex.I =
      (t : ℂ) * ((x : ℝ) + (y : ℝ) * Complex.I) := by
    push_cast
    ring
  rw [h, Complex.arg_real_mul _ ht]

theorem parseSphericity_mem (env : Option ℝ) : parseSphericityFromEnv env ∈ Icc (0 : ℝ) 1 := by
  unfold parseSphericityFromEnv
  rcases env with _ | v
  · norm_num
  · simp only
    split_ifs with h1 h2
    · exact ⟨le_refl 0, zero_le_one⟩
    · exact ⟨zero_le_one, le_refl 1⟩
    · push_neg at h1 h2
      exact ⟨h1, h2⟩

/-- Claim C10: for every pointer position and camera state, the
pointer-to-capture-pixel mapping viewMouseToCaptureXY returns no pixel
whenever the capture width/height or the window/framebuffer dimensions are
non-positive, regardless of the rest of the input. -/
theorem claim_C10 (st : LoopState) (tmax : ℝ) (capW capH winW winH fbW fbH : ℤ)
    (xpos ypos : ℝ)
    (h : capW ≤ 0 ∨ capH ≤ 0 ∨ winW ≤ 0 ∨ winH ≤ 0 ∨ fbW ≤ 0 ∨ fbH ≤ 0) :
    viewMouseToCaptureXY st tmax capW capH winW winH fbW fbH xpos ypos = none := by
  unfold viewMouseToCaptureXY uvStage
  split_ifs with h1 h2
  · rfl
  · rfl
  · exfalso
    push_neg at h1 h2
    rcases h with h | h | h | h | h | h
    · exact absurd h (not_le.2 h1.1)
    · exact absurd h (not_le.2 h1.2)
    · exact absurd h (not_le.2 h2.2.2.1)
    · exact absurd h (not_le.2 h2.2.2.2)
    · exact absurd h (not_le.2 h2.1)
    · exact absurd h (not_le.2 h2.2.1)

/-- Witness for C10 at a concrete degenerate input (capture width 0). -/
theorem claim_C10_witness :
    viewMouseToCaptureXY ⟨0, 0, 90, 1, ProjectionMode.Sphere⟩ 1 0 1 1 1 1 1 0 0 = none :=
  claim_C10 ⟨0, 0, 90, 1, ProjectionMode.Sphere⟩ 1 0 1 1 1 1 1 0 0 (Or.inl (le_refl 0))

/-- Claim C8: on a left-button event, when the inverse mapping rejects, no
pointer move or button event is injected, but the left-button-down flag is
still set on press and cleared on release. -/
theorem claim_C8 (st : LoopState) (tmax : ℝ) (capW capH winW winH fbW fbH : ℤ)
    (xpos ypos : ℝ) (action : ℕ) (leftDown0 : Bool)
    (hmap : viewMouseToCaptureXY st tmax capW capH winW winH fbW fbH xpos ypos = none) :
    (onMouseButton true true st tmax capW capH winW winH fbW fbH xpos ypos
        GLFW_MOUSE_BUTTON_LEFT action leftDown0).moves = [] ∧
    (onMouseButton true true st tmax capW capH winW winH fbW fbH xpos ypos
        GLFW_MOUSE_BUTTON_LEFT action leftDown0).buttons = [] ∧
    (action = GLFW_PRESS →
      (onMouseButton true true st tmax capW capH winW winH fbW fbH xpos ypos
        GLFW_MOUSE_BUTTON_LEFT action leftDown0).leftDown = true) ∧
    (action = GLFW_RELEASE →
      (onMouseButton true true st tmax capW capH winW winH fbW fbH xpos ypos
        GLFW_MOUSE_BUTTON_LEFT action leftDown0).leftDown = false) := by
  unfold onMouseButton
  rw [hmap]
  refine ⟨by simp, by simp, ?_, ?_⟩
  · intro ha
    simp [ha]
  · intro ha
    simp [ha, GLFW_RELEASE, GLFW_PRESS]

/-- Witness for C8 at a concrete rejected mapping (capture width 0, press). -/
theorem claim_C8_witness :
    (onMouseButton true true ⟨0, 0, 90, 1, ProjectionMode.Sphere⟩ 1 0 1 1 1 1 1 0 0
        GLFW_MOUSE_BUTTON_LEFT GLFW_PRESS false).moves = [] ∧
    (onMouseButton true true ⟨0, 0, 90, 1, ProjectionMode.Sphere⟩ 1 0 1 1 1 1 1 0 0
        GLFW_MOUSE_BUTTON_LEFT GLFW_PRESS false).leftDown = true := by
  have hmap : viewMouseToCaptureXY ⟨0, 0, 90, 1, ProjectionMode.Sphere⟩ 1 0 1 1 1 1 1 0 0 =
      none := by
    unfold viewMouseToCaptureXY uvStage
    rw [if_pos (Or.inl (le_refl 0))]
    rfl
  have h := claim_C8 ⟨0, 0, 90, 1, ProjectionMode.Sphere⟩ 1 0 1 1 1 1 1 0 0
    GLFW_PRESS false hmap
  exact ⟨h.1, h.2.2.1 rfl⟩

/-- Claim C4: with theta = asin(clamp(dy, -1, 1)), the SphereClamp inverse
rejects exactly when abs theta exceeds tmax; otherwise it returns
v = 1 - (theta + tmax)/(2*tmax), and this v is a strictly monotonic
(decreasing) function of theta on [-tmax, tmax]. -/
theorem claim_C4 (d : Vec3) (tmax : ℝ) (ht : 0 < tmax) :
    (dirToUV_SphereClamp d tmax = none ↔ tmax < |Real.arcsin (rclamp d.y (-1) 1)|) ∧
    (¬ tmax < |Real.arcsin (rclamp d.y (-1) 1)| →
      dirToUV_SphereClamp d tmax =
        some (wrapPhi (atan2 d.z d.x) / (2 * π),
          1 - ((Real.arcsin (rclamp d.y (-1) 1) + tmax) / (2 * tmax)))) ∧
    StrictAntiOn (fun θ : ℝ => 1 - ((θ + tmax) / (2 * tmax))) (Icc (-tmax) tmax) := by
  have hiff : (Real.arcsin (rclamp d.y (-1) 1) < -tmax ∨
      Real.arcsin (rclamp d.y (-1) 1) > tmax) ↔
      tmax < |Real.arcsin (rclamp d.y (-1) 1)| := by
    rw [lt_abs]
    constructor
    · rintro (h | h)
      · exact Or.inr (by linarith)
      · exact Or.inl h
    · rintro (h | h)
      · exact Or.inr h
      · exact Or.inl (by linarith)
  refine ⟨?_, ?_, ?_⟩
  · simp only [dirToUV_SphereClamp]
    split_ifs with hcond
    · simp only [true_iff]
      exact hiff.1 hcond
    · simp only [false_iff, reduceCtorEq]
      exact fun hc => hcond (hiff.2 hc)
  · intro hna
    simp only [dirToUV_SphereClamp]
    rw [if_neg (fun hc => hna (hiff.1 hc))]
  · intro a _ b _ hab
    simp only
    have h2t : (0 : ℝ) < 2 * tmax := by linarith
    have : (a + tmax) / (2 * tmax) < (b + tmax) / (2 * tmax) :=
      div_lt_div_of_pos_right (by linarith) h2t
    linarith

/-- Witness for C4 at direction (1,0,0) and tmax = 1. -/
theorem claim_C4_witness :
    dirToUV_SphereClamp ⟨1, 0, 0⟩ 1 ≠ none := by
  have h := claim_C4 ⟨1, 0, 0⟩ 1 (by norm_num)
  have hθ : Real.arcsin (rclamp (⟨1, 0, 0⟩ : Vec3).y (-1) 1) = 0 := by
    show Real.arcsin (rclamp 0 (-1) 1) = 0
    rw [rclamp_eq_self (by norm_num) (by norm_num), Real.arcsin_zero]
  intro hnone
  have := h.1.mp hnone
  rw [hθ] at this
  norm_num at this

/-- Claim C2: the Morph inverse rejects when dxz = sqrt(dx^2+dz^2) is below
the 1e-6 threshold; otherwise it evaluates f at the endpoints of
[-pi/2+1e-4, pi/2-1e-4]; if the endpoint values have the same (strict) sign
it rejects, and on a strict sign change it runs exactly 40 fixed bisection
iterations and maps the midpoint theta to v by the Sphere formula. -/
theorem claim_C2 (d : Vec3) (s : ℝ) (hs : s ∈ Icc (0 : ℝ) 1) :
    (Real.sqrt (d.x * d.x + d.z * d.z) < 1e-6 → dirToUV_Morph d s = none) ∧
    (¬ Real.sqrt (d.x * d.x + d.z * d.z) < 1e-6 →
      0 < morphF s d.y (Real.sqrt (d.x * d.x + d.z * d.z)) (-(π / 2) + 1e-4) *
          morphF s d.y (Real.sqrt (d.x * d.x + d.z * d.z)) (π / 2 - 1e-4) →
      dirToUV_Morph d s = none) ∧
    (¬ Real.sqrt (d.x * d.x + d.z * d.z) < 1e-6 →
      morphF s d.y (Real.sqrt (d.x * d.x + d.z * d.z)) (-(π / 2) + 1e-4) *
          morphF s d.y (Real.sqrt (d.x * d.x + d.z * d.z)) (π / 2 - 1e-4) < 0 →
      dirToUV_Morph d s =
        some (wrapPhi (atan2 d.z d.x) / (2 * π),
          1 - ((((bisect (morphF s d.y (Real.sqrt (d.x * d.x + d.z * d.z))) 40
                    (-(π / 2) + 1e-4) (π / 2 - 1e-4)).1 +
                 (bisect (morphF s d.y (Real.sqrt (d.x * d.x + d.z * d.z))) 40
                    (-(π / 2) + 1e-4) (π / 2 - 1e-4)).2) / 2 + π / 2) / π))) := by
  refine ⟨?_, ?_, ?_⟩
  · intro h6
    simp only [dirToUV_Morph]
    rw [if_pos h6]
  · intro h6 hsame
    have hflo : morphF s d.y (Real.sqrt (d.x * d.x + d.z * d.z)) (-(π / 2) + 1e-4) ≠ 0 := by
      intro h
      rw [h, zero_mul] at hsame
      exact lt_irrefl 0 hsame
    have hfhi : morphF s d.y (Real.sqrt (d.x * d.x + d.z * d.z)) (π / 2 - 1e-4) ≠ 0 := by
      intro h
      rw [h, mul_zero] at hsame
      exact lt_irrefl 0 hsame
    have hor : (0 < morphF s d.y (Real.sqrt (d.x * d.x + d.z * d.z)) (-(π / 2) + 1e-4) ∧
        0 < morphF s d.y (Real.sqrt (d.x * d.x + d.z * d.z)) (π / 2 - 1e-4)) ∨
        (morphF s d.y (Real.sqrt (d.x * d.x + d.z * d.z)) (-(π / 2) + 1e-4) < 0 ∧
        morphF s d.y (Real.sqrt (d.x * d.x + d.z * d.z)) (π / 2 - 1e-4) < 0) := by
      rcases mul_pos_iff.1 hsame with ⟨h1, h2⟩ | ⟨h1, h2⟩
      · exact Or.inl ⟨h1, h2⟩
      · exact Or.inr ⟨h1, h2⟩
    simp only [dirToUV_Morph, clamp01_of_mem hs]
    rw [if_neg h6, if_neg hflo, if_neg hfhi, if_pos hor]
  · intro h6 hsign
    have hflo : morphF s d.y (Real.sqrt (d.x * d.x + d.z * d.z)) (-(π / 2) + 1e-4) ≠ 0 := by
      intro h
      rw [h, zero_mul] at hsign
      exact lt_irrefl 0 hsign
    have hfhi : morphF s d.y (Real.sqrt (d.x * d.x + d.z * d.z)) (π / 2 - 1e-4) ≠ 0 := by
      intro h
      rw [h, mul_zero] at hsign
      exact lt_irrefl 0 hsign
    have hns : ¬ ((0 < morphF s d.y (Real.sqrt (d.x * d.x + d.z * d.z)) (-(π / 2) + 1e-4) ∧
          0 < morphF s d.y (Real.sqrt (d.x * d.x + d.z * d.z)) (π / 2 - 1e-4)) ∨
        (morphF s d.y (Real.sqrt (d.x * d.x + d.z * d.z)) (-(π / 2) + 1e-4) < 0 ∧
          morphF s d.y (Real.sqrt (d.x * d.x + d.z * d.z)) (π / 2 - 1e-4) < 0)) := by
      rintro (⟨ha, hb⟩ | ⟨ha, hb⟩) <;> nlinarith
    simp only [dirToUV_Morph, clamp01_of_mem hs]
    rw [if_neg h6, if_neg hflo, if_neg hfhi, if_neg hns]

/-- Witness for C2 at the straight-up direction (0,1,0): dxz = 0 rejects. -/
theorem claim_C2_witness : dirToUV_Morph ⟨0, 1, 0⟩ 1 = none := by
  have h := claim_C2 ⟨0, 1, 0⟩ 1 (by constructor <;> norm_num)
  apply h.1
  show Real.sqrt ((0 : ℝ) * 0 + 0 * 0) < 1e-6
  rw [show (0 : ℝ) * 0 + 0 * 0 = 0 by ring, Real.sqrt_zero]
  norm_num

/-- Claim C9: the render/input loop preserves the state invariants (pitch in
[-89, 89], FOV in [30, 120], sphericity in [0, 1]); sphericity is clamped on
the environment parse; the clamp half-angle is always a degrees value clamped
to [1, 89.9] times pi/180; yaw is updated without any clamp; and the initial
state satisfies the invariants. -/
theorem claim_C9 :
    (∀ env : Option ℝ, parseSphericityFromEnv env ∈ Icc (0 : ℝ) 1) ∧
    (∀ env : Option ℝ, ∃ deg : ℝ, deg ∈ Icc (1 : ℝ) 89.9 ∧
        sphereClampThetaMaxRadOf env = deg * π / 180) ∧
    (∀ (st : LoopState) (fl : KeyFlags) (k : Keys),
        stateInv st → stateInv (frameUpdate st fl k).1) ∧
    (∀ (st : LoopState) (fl : KeyFlags) (k : Keys),
        (frameUpdate st fl k).1.yawDeg =
          st.yawDeg + (if k.left then (3 : ℝ) else 0) - (if k.right then (3 : ℝ) else 0)) ∧
    (∀ (env : Option ℝ) (m : ProjectionMode), stateInv (initState env m)) := by
  refine ⟨parseSphericity_mem, ?_, ?_, ?_, ?_⟩
  · intro env
    simp only [sphereClampThetaMaxRadOf]
    rcases env with _ | v
    · refine ⟨80, ⟨by norm_num, by norm_num⟩, ?_⟩
      norm_num
    · simp only
      refine ⟨_, ⟨?_, ?_⟩, rfl⟩
      · split_ifs with h1 h2 <;> linarith
      · split_ifs with h1 h2 <;> linarith
  · intro st fl k hinv
    obtain ⟨hp1, hp2, hf1, hf2, hs1, hs2⟩ := hinv
    simp only [frameUpdate, stateInv]
    refine ⟨?_, ?_, ?_, ?_, ?_, ?_⟩
    · split_ifs <;> linarith
    · split_ifs <;> linarith
    · split_ifs <;> linarith
    · split_ifs <;> linarith
    · split_ifs with h1 h2 h3
      · exact (clamp01_mem _).1
      · exact (clamp01_mem _).1
      · exact (clamp01_mem _).1
      · exact hs1
    · split_ifs with h1 h2 h3
      · exact (clamp01_mem _).2
      · exact (clamp01_mem _).2
      · exact (clamp01_mem _).2
      · exact hs2
  · intro st fl k
    simp only [frameUpdate]
    split_ifs <;> ring
  · intro env m
    simp only [initState, stateInv]
    refine ⟨by norm_num, by norm_num, by norm_num, by norm_num, ?_, ?_⟩
    · exact (parseSphericity_mem env).1
    · exact (parseSphericity_mem env).2

/-- Witness for C9: the invariants hold after a frame with every key held
from the default initial state. -/
theorem claim_C9_witness :
    stateInv (frameUpdate ⟨0, 0, 90, 1, ProjectionMode.Sphere⟩
      ⟨false, false, false, false, false⟩
      ⟨true, true, true, true, true, true, true, true, true⟩).1 := by
  apply claim_C9.2.2.1
  refine ⟨by norm_num, by norm_num, by norm_num, by norm_num, by norm_num, by norm_num⟩

theorem atan2_neg_one_zero : atan2 (-1) 0 = -(π / 2) := by
  unfold atan2
  have h : ((0 : ℝ) : ℂ) + ((-1 : ℝ) : ℂ) * Complex.I = -Complex.I := by
    push_cast
    ring
  rw [h, Complex.arg_neg_I]

theorem wrapPhi_neg_pi_div_two : wrapPhi (-(π / 2)) = 3 * π / 2 := by
  unfold wrapPhi
  rw [if_pos (by linarith [Real.pi_pos])]
  ring

theorem dirToUV_Sphere_down : dirToUV_Sphere ⟨0, 0, -1⟩ = (3 / 4, 1 / 2) := by
  have hπ := Real.pi_ne_zero
  simp only [dirToUV_Sphere]
  show (wrapPhi (atan2 (-1) 0) / (2 * π),
    1 - ((Real.arcsin (rclamp 0 (-1) 1) + π / 2) / π)) = ((3 : ℝ) / 4, (1 : ℝ) / 2)
  rw [rclamp_eq_self (by norm_num) (by norm_num), Real.arcsin_zero,
    atan2_neg_one_zero, wrapPhi_neg_pi_div_two]
  rw [Prod.mk.injEq]
  constructor
  · field_simp
    ring
  · field_simp
    ring

/-- Claim C5 counterexample: at the world direction (0,0,-1) the sphere
inverse produces u = 3/4 (phi = 3*pi/2), not u = 0.5 (phi = pi) as claimed. -/
theorem claim_C5_counterexample :
    (dirToUV_Sphere ⟨0, 0, -1⟩).1 = 3 / 4 ∧ ((3 : ℝ) / 4) ≠ 1 / 2 ∧
    wrapPhi (atan2 (⟨0, 0, -1⟩ : Vec3).z (⟨0, 0, -1⟩ : Vec3).x) = 3 * π / 2 ∧
    3 * π / 2 ≠ π := by
  refine ⟨by rw [dirToUV_Sphere_down], by norm_num, ?_, ?_⟩
  · show wrapPhi (atan2 (-1) 0) = 3 * π / 2
    rw [atan2_neg_one_zero, wrapPhi_neg_pi_div_two]
  · intro h
    exact Real.pi_ne_zero (by linarith)

/-- Claim C5 amended: with yaw = 0 and pitch = 0 the view ray (0,0,-1) is
unchanged, and the Sphere inverse resolves it to theta = 0, phi = 3*pi/2,
u = 0.75, v = 0.5. -/
theorem claim_C5_amended :
    rotateY (rotateX ⟨0, 0, -1⟩ 0) 0 = ⟨0, 0, -1⟩ ∧
    Real.arcsin (rclamp (⟨0, 0, -1⟩ : Vec3).y (-1) 1) = 0 ∧
    wrapPhi (atan2 (⟨0, 0, -1⟩ : Vec3).z (⟨0, 0, -1⟩ : Vec3).x) = 3 * π / 2 ∧
    dirToUV_Sphere ⟨0, 0, -1⟩ = (3 / 4, 1 / 2) := by
  refine ⟨?_, ?_, ?_, dirToUV_Sphere_down⟩
  · simp only [rotateX, rotateY]
    norm_num
  · show Real.arcsin (rclamp 0 (-1) 1) = 0
    rw [rclamp_eq_self (by norm_num) (by norm_num), Real.arcsin_zero]
  · show wrapPhi (atan2 (-1) 0) = 3 * π / 2
    rw [atan2_neg_one_zero, wrapPhi_neg_pi_div_two]

theorem wrapPhi_div_mem (y x : ℝ) : wrapPhi (atan2 y x) / (2 * π) ∈ Ico (0 : ℝ) 1 := by
  have h := wrapPhi_atan2_mem y x
  have h2π : (0 : ℝ) < 2 * π := by linarith [Real.pi_pos]
  constructor
  · exact div_nonneg h.1 (le_of_lt h2π)
  · rw [div_lt_one h2π]
    exact h.2

theorem sphereV_mem {θ : ℝ} (h : θ ∈ Icc (-(π / 2)) (π / 2)) :
    1 - ((θ + π / 2) / π) ∈ Icc (0 : ℝ) 1 := by
  have hπ := Real.pi_pos
  constructor
  · have h1 : (θ + π / 2) / π ≤ 1 := by
      rw [div_le_one hπ]
      linarith [h.2]
    linarith
  · have h2 : 0 ≤ (θ + π / 2) / π := div_nonneg (by linarith [h.1]) (le_of_lt hπ)
    linarith

/-- Claim C7 counterexample: the sphere mesh emits u = 1 (not in [0,1)) at
the seam vertex with sector index equal to the sector count. -/
theorem claim_C7_counterexample :
    (sphereMeshUV1 64 128 0 128).1 = 1 ∧ ¬ (sphereMeshUV1 64 128 0 128).1 < 1 := by
  have hπ := Real.pi_ne_zero
  have h : (sphereMeshUV1 64 128 0 128).1 = 1 := by
    simp only [sphereMeshUV1]
    push_cast
    field_simp
  exact ⟨h, by rw [h]; exact lt_irrefl 1⟩

/-- Claim C7 amended: the inverse mapping always produces u in [0,1) and, on
success, v in [0,1]; the forward mesh texture coordinates lie in the closed
square [0,1] x [0,1], with u = 1 attained at the duplicated seam vertex
phi = 2*pi. -/
theorem claim_C7_amended :
    (∀ rings sectors r sIdx : ℕ, 0 < rings → 0 < sectors → r ≤ rings → sIdx ≤ sectors →
      (sphereMeshUV1 rings sectors r sIdx).1 ∈ Icc (0 : ℝ) 1 ∧
      (sphereMeshUV1 rings sectors r sIdx).2 ∈ Icc (0 : ℝ) 1) ∧
    (∀ (m : ProjectionMode) (sph tmax : ℝ) (d : Vec3) (u v : ℝ), 0 < tmax →
      rayToUV m sph tmax d = some (u, v) → u ∈ Ico (0 : ℝ) 1 ∧ v ∈ Icc (0 : ℝ) 1) := by
  have hπ := Real.pi_pos
  constructor
  · intro rings sectors r sIdx hr hsec hrle hsle
    have hru : (r : ℝ) / (rings : ℝ) ∈ Icc (0 : ℝ) 1 := by
      constructor
      · positivity
      · rw [div_le_one (by exact_mod_cast hr)]
        exact_mod_cast hrle
    have hsu : (sIdx : ℝ) / (sectors : ℝ) ∈ Icc (0 : ℝ) 1 := by
      constructor
      · positivity
      · rw [div_le_one (by exact_mod_cast hsec)]
        exact_mod_cast hsle
    simp only [sphereMeshUV1]
    constructor
    · have hu : (sIdx : ℝ) / (sectors : ℝ) * (2 * π) / (2 * π) = (sIdx : ℝ) / (sectors : ℝ) := by
        field_simp
        ring
      rw [hu]
      exact hsu
    · have hv : 1 - (((r : ℝ) / (rings : ℝ) * π - π / 2 + π / 2) / π) =
          1 - (r : ℝ) / (rings : ℝ) := by
        field_simp
        ring
      rw [hv]
      exact ⟨by linarith [hru.2], by linarith [hru.1]⟩
  · intro m sph tmax d u v ht h
    cases m with
    | Sphere =>
        simp only [rayToUV, Option.some.injEq] at h
        have hu : u = (dirToUV_Sphere d).1 := by rw [h]
        have hv : v = (dirToUV_Sphere d).2 := by rw [h]
        rw [hu, hv]
        simp only [dirToUV_Sphere]
        exact ⟨wrapPhi_div_mem _ _, sphereV_mem (Real.arcsin_mem_Icc _)⟩
    | SphereClamp =>
        simp only [rayToUV, dirToUV_SphereClamp] at h
        split_ifs at h with hc
        push_neg at hc
        simp only [Option.some.injEq, Prod.mk.injEq] at h
        obtain ⟨hu, hv⟩ := h
        have h2t : (0 : ℝ) < 2 * tmax := by linarith
        refine ⟨hu ▸ wrapPhi_div_mem _ _, ?_⟩
        rw [← hv]
        constructor
        · have : (Real.arcsin (rclamp d.y (-1) 1) + tmax) / (2 * tmax) ≤ 1 := by
            rw [div_le_one h2t]
            linarith [hc.2]
          linarith
        · have : 0 ≤ (Real.arcsin (rclamp d.y (-1) 1) + tmax) / (2 * tmax) :=
            div_nonneg (by linarith [hc.1]) (le_of_lt h2t)
          linarith
    | Cylinder =>
        simp only [rayToUV, dirToUV_Cylinder] at h
        split_ifs at h with h1 h2
        push_neg at h2
        simp only [Option.some.injEq, Prod.mk.injEq] at h
        obtain ⟨hu, hv⟩ := h
        refine ⟨hu ▸ wrapPhi_div_mem _ _, ?_⟩
        rw [← hv]
        exact sphereV_mem ⟨h2.1, h2.2⟩
    | Morph =>
        simp only [rayToUV, dirToUV_Morph] at h
        split_ifs at h with h1 h2 h3 h4 <;>
          simp only [Option.some.injEq, Prod.mk.injEq] at h
        · obtain ⟨hu, hv⟩ := h
          refine ⟨hu ▸ wrapPhi_div_mem _ _, ?_⟩
          rw [← hv]
          apply sphereV_mem
          constructor <;> nlinarith [Real.pi_gt_three]
        · obtain ⟨hu, hv⟩ := h
          refine ⟨hu ▸ wrapPhi_div_mem _ _, ?_⟩
          rw [← hv]
          apply sphereV_mem
          constructor <;> nlinarith [Real.pi_gt_three]
        · obtain ⟨hu, hv⟩ := h
          refine ⟨hu ▸ wrapPhi_div_mem _ _, ?_⟩
          rw [← hv]
          apply sphereV_mem
          have hle : -(π / 2) + 1e-4 ≤ π / 2 - 1e-4 := by linarith [Real.pi_gt_three]
          obtain ⟨hb1, hb2, hb3⟩ := bisect_bounds
            (morphF (clamp01 sph) d.y (Real.sqrt (d.x * d.x + d.z * d.z))) 40
            (-(π / 2) + 1e-4) (π / 2 - 1e-4) hle
          constructor <;> nlinarith

/-- Witness for C7 amended at mesh indices (0,0) of a 64x128 grid and the
sphere inverse at direction (0,0,-1). -/
theorem claim_C7_witness :
    ((sphereMeshUV1 64 128 0 0).1 ∈ Icc (0 : ℝ) 1 ∧
      (sphereMeshUV1 64 128 0 0).2 ∈ Icc (0 : ℝ) 1) ∧
    ((3 : ℝ) / 4 ∈ Ico (0 : ℝ) 1 ∧ (1 : ℝ) / 2 ∈ Icc (0 : ℝ) 1) := by
  constructor
  · exact claim_C7_amended.1 64 128 0 0 (by norm_num) (by norm_num) (by norm_num) (by norm_num)
  · apply claim_C7_amended.2 ProjectionMode.Sphere 1 1 ⟨0, 0, -1⟩ (3 / 4) (1 / 2) (by norm_num)
    simp only [rayToUV]
    rw [dirToUV_Sphere_down]

theorem normalize_down : normalize ⟨0, 0, -1⟩ = ⟨0, 0, -1⟩ := by
  simp only [normalize]
  rw [show (0 : ℝ) * 0 + 0 * 0 + -1 * -1 = 1 by ring, Real.sqrt_one]
  norm_num

theorem rotateX_zero (v : Vec3) : rotateX v 0 = v := by
  rcases v with ⟨x, y, z⟩
  simp only [rotateX]
  norm_num

theorem rotateY_down_135 : rotateY ⟨0, 0, -1⟩ 135 = ⟨-(Real.sqrt 2 / 2), 0, Real.sqrt 2 / 2⟩ := by
  simp only [rotateY]
  have ha : (135 : ℝ) * π / 180 = π - π / 4 := by ring
  rw [ha, Real.cos_pi_sub, Real.sin_pi_sub, Real.cos_pi_div_four, Real.sin_pi_div_four]
  simp only [Vec3.mk.injEq]
  refine ⟨by ring, by ring, by ring⟩

theorem normalize_diag :
    normalize ⟨-(Real.sqrt 2 / 2), 0, Real.sqrt 2 / 2⟩ =
      ⟨-(Real.sqrt 2 / 2), 0, Real.sqrt 2 / 2⟩ := by
  simp only [normalize]
  have h2 : Real.sqrt 2 * Real.sqrt 2 = 2 := Real.mul_self_sqrt (by norm_num)
  have hinner : -(Real.sqrt 2 / 2) * -(Real.sqrt 2 / 2) + 0 * 0 +
      Real.sqrt 2 / 2 * (Real.sqrt 2 / 2) = 1 := by linear_combination h2 / 2
  rw [hinner, Real.sqrt_one]
  norm_num

theorem atan2_diag : atan2 (Real.sqrt 2 / 2) (-(Real.sqrt 2 / 2)) = 3 * π / 4 := by
  have hπ := Real.pi_pos
  have hc : -(Real.sqrt 2 / 2) = Real.cos (3 * π / 4) := by
    rw [show (3 : ℝ) * π / 4 = π - π / 4 by ring, Real.cos_pi_sub, Real.cos_pi_div_four]
  have hs : Real.sqrt 2 / 2 = Real.sin (3 * π / 4) := by
    rw [show (3 : ℝ) * π / 4 = π - π / 4 by ring, Real.sin_pi_sub, Real.sin_pi_div_four]
  rw [hc, hs]
  have h := atan2_scaled_cos_sin (c := 1) one_pos
    (φ := 3 * π / 4) ⟨by linarith, by linarith⟩
  simpa using h

theorem dirToUV_Sphere_diag :
    dirToUV_Sphere ⟨-(Real.sqrt 2 / 2), 0, Real.sqrt 2 / 2⟩ = (3 / 8, 1 / 2) := by
  have hπ := Real.pi_ne_zero
  have hπpos := Real.pi_pos
  simp only [dirToUV_Sphere]
  show (wrapPhi (atan2 (Real.sqrt 2 / 2) (-(Real.sqrt 2 / 2))) / (2 * π),
      1 - ((Real.arcsin (rclamp 0 (-1) 1) + π / 2) / π)) = ((3 : ℝ) / 8, (1 : ℝ) / 2)
  rw [rclamp_eq_self (by norm_num) (by norm_num), Real.arcsin_zero, atan2_diag]
  have hwrap : wrapPhi (3 * π / 4) = 3 * π / 4 := by
    unfold wrapPhi
    rw [if_neg (by push_neg; positivity)]
  rw [hwrap, Prod.mk.injEq]
  constructor
  · field_simp
    ring_nf
  · field_simp
    ring

theorem viewRayWorld_eval (yaw : ℝ) :
    viewRayWorld yaw 0 90 2 2 2 2 0.5 0.5 = normalize (rotateY ⟨0, 0, -1⟩ yaw) := by
  simp only [viewRayWorld]
  have h1 : (90 : ℝ) * 0.5 * π / 180 = π / 4 := by ring
  rw [h1, Real.tan_pi_div_four]
  norm_num
  rw [normalize_down, rotateX_zero]

/-- Claim C6 counterexample: at a concrete input (Sphere mode, yaw 135, FOV
90, cursor at the center of a 2x2 window, 4x4 capture) the mapping succeeds
with UV = (3/8, 1/2) and produces pixel (1, 2) by truncation, while the
claimed round formula would give x = round(3/8 * 4) = 2. -/
theorem claim_C6_counterexample :
    uvStage ⟨135, 0, 90, 1, ProjectionMode.Sphere⟩ 1 4 4 2 2 2 2 0.5 0.5 =
      some (3 / 8, 1 / 2) ∧
    viewMouseToCaptureXY ⟨135, 0, 90, 1, ProjectionMode.Sphere⟩ 1 4 4 2 2 2 2 0.5 0.5 =
      some (1, 2) ∧
    intClamp (round ((3 : ℝ) / 8 * ((4 : ℤ) : ℝ))) 0 (max 0 (4 - 1)) = 2 ∧
    ((1 : ℤ) ≠ 2) := by
  have huv : uvStage ⟨135, 0, 90, 1, ProjectionMode.Sphere⟩ 1 4 4 2 2 2 2 0.5 0.5 =
      some (3 / 8, 1 / 2) := by
    simp only [uvStage]
    rw [if_neg (by norm_num), if_neg (by norm_num)]
    show rayToUV ProjectionMode.Sphere 1 1 (viewRayWorld 135 0 90 2 2 2 2 0.5 0.5) = _
    rw [viewRayWorld_eval, rotateY_down_135, normalize_diag]
    simp only [rayToUV]
    rw [dirToUV_Sphere_diag]
  refine ⟨huv, ?_, ?_, by norm_num⟩
  · simp only [viewMouseToCaptureXY]
    rw [huv]
    simp only [Option.map_some', pixelOfUV]
    have ht1 : truncToInt ((3 : ℝ) / 8 * ((4 : ℤ) : ℝ)) = 1 := by
      unfold truncToInt
      rw [if_pos (by norm_num)]
      rw [show (3 : ℝ) / 8 * ((4 : ℤ) : ℝ) = 3 / 2 by norm_num]
      rw [Int.floor_eq_iff]
      norm_num
    have ht2 : truncToInt ((1 : ℝ) / 2 * ((4 : ℤ) : ℝ)) = 2 := by
      unfold truncToInt
      rw [if_pos (by norm_num)]
      rw [show (1 : ℝ) / 2 * ((4 : ℤ) : ℝ) = 2 by norm_num]
      rw [Int.floor_eq_iff]
      norm_num
    rw [ht1, ht2]
    unfold intClamp
    norm_num
  · have hr : round ((3 : ℝ) / 8 * ((4 : ℤ) : ℝ)) = 2 := by
      rw [show (3 : ℝ) / 8 * ((4 : ℤ) : ℝ) = 3 / 2 by norm_num]
      rw [round_eq]
      norm_num
    rw [hr]
    unfold intClamp
    norm_num

/-- Claim C6 amended: whenever the mapping succeeds with internal UV (u, v),
the produced pixel is (trunc(u*capW), trunc(v*capH)) (truncation toward
zero, not rounding), each clamped to [0, dimension-1]; consequently every
produced pixel lies in [0, capW-1] x [0, capH-1]. -/
theorem claim_C6_amended :
    (∀ (st : LoopState) (tmax : ℝ) (capW capH winW winH fbW fbH : ℤ) (xpos ypos u v : ℝ),
      uvStage st tmax capW capH winW winH fbW fbH xpos ypos = some (u, v) →
      viewMouseToCaptureXY st tmax capW capH winW winH fbW fbH xpos ypos =
        some (intClamp (truncToInt (u * (capW : ℝ))) 0 (max 0 (capW - 1)),
          intClamp (truncToInt (v * (capH : ℝ))) 0 (max 0 (capH - 1)))) ∧
    (∀ (st : LoopState) (tmax : ℝ) (capW capH winW winH fbW fbH : ℤ) (xpos ypos : ℝ)
      (p : ℤ × ℤ),
      viewMouseToCaptureXY st tmax capW capH winW winH fbW fbH xpos ypos = some p →
      0 ≤ p.1 ∧ p.1 ≤ capW - 1 ∧ 0 ≤ p.2 ∧ p.2 ≤ capH - 1) := by
  constructor
  · intro st tmax capW capH winW winH fbW fbH xpos ypos u v h
    simp only [viewMouseToCaptureXY]
    rw [h]
    simp only [Option.map_some', pixelOfUV]
  · intro st tmax capW capH winW winH fbW fbH xpos ypos p h
    simp only [viewMouseToCaptureXY] at h
    rw [Option.map_eq_some'] at h
    obtain ⟨uv, huv, hp⟩ := h
    have hcap : 0 < capW ∧ 0 < capH := by
      simp only [uvStage] at huv
      split_ifs at huv with h1 h2
      push_neg at h1
      exact ⟨h1.1, h1.2⟩
    rw [← hp]
    simp only [pixelOfUV]
    have hW : max 0 (capW - 1) = capW - 1 := max_eq_right (by omega)
    have hH : max 0 (capH - 1) = capH - 1 := max_eq_right (by omega)
    rw [hW, hH]
    unfold intClamp
    refine ⟨le_min (le_max_right _ _) (by omega), min_le_right _ _,
      le_min (le_max_right _ _) (by omega), min_le_right _ _⟩

/-- Witness for C6 amended at the concrete successful mapping of the
counterexample input. -/
theorem claim_C6_witness :
    viewMouseToCaptureXY ⟨135, 0, 90, 1, ProjectionMode.Sphere⟩ 1 4 4 2 2 2 2 0.5 0.5 =
      some (intClamp (truncToInt ((3 : ℝ) / 8 * ((4 : ℤ) : ℝ))) 0 (max 0 (4 - 1)),
        intClamp (truncToInt ((1 : ℝ) / 2 * ((4 : ℤ) : ℝ))) 0 (max 0 (4 - 1))) := by
  apply claim_C6_amended.1
  simp only [uvStage]
  rw [if_neg (by norm_num), if_neg (by norm_num)]
  show rayToUV ProjectionMode.Sphere 1 1 (viewRayWorld 135 0 90 2 2 2 2 0.5 0.5) = _
  rw [viewRayWorld_eval, rotateY_down_135, normalize_diag]
  simp only [rayToUV]
  rw [dirToUV_Sphere_diag]

theorem dirToUV_Sphere_mk (x y z : ℝ) :
    dirToUV_Sphere ⟨x, y, z⟩ =
      (wrapPhi (atan2 z x) / (2 * π),
       1 - ((Real.arcsin (rclamp y (-1) 1) + π / 2) / π)) := rfl

theorem dirToUV_SphereClamp_mk (x y z tmax : ℝ) :
    dirToUV_SphereClamp ⟨x, y, z⟩ tmax =
      if Real.arcsin (rclamp y (-1) 1) < -tmax ∨ Real.arcsin (rclamp y (-1) 1) > tmax then
        none
      else
        some (wrapPhi (atan2 z x) / (2 * π),
          1 - ((Real.arcsin (rclamp y (-1) 1) + tmax) / (2 * tmax))) := rfl

theorem dirToUV_Cylinder_mk (x y z : ℝ) :
    dirToUV_Cylinder ⟨x, y, z⟩ =
      if Real.sqrt (x * x + z * z) < 1e-6 then none
      else if y * (SPHERE_RADIUS / Real.sqrt (x * x + z * z)) / SPHERE_RADIUS < -(π / 2) ∨
          y * (SPHERE_RADIUS / Real.sqrt (x * x + z * z)) / SPHERE_RADIUS > π / 2 then none
      else
        some (wrapPhi (atan2 (z * (SPHERE_RADIUS / Real.sqrt (x * x + z * z)))
            (x * (SPHERE_RADIUS / Real.sqrt (x * x + z * z)))) / (2 * π),
          1 - ((y * (SPHERE_RADIUS / Real.sqrt (x * x + z * z)) / SPHERE_RADIUS + π / 2) / π)) :=
  rfl

theorem roundtrip_sphere (sph : ℝ) {θ φ : ℝ} (hθ : θ ∈ Ioo (-(π / 2)) (π / 2))
    (hφ : φ ∈ Ico 0 (2 * π)) :
    dirToUV_Sphere (normalize (forwardPos ProjectionMode.Sphere sph θ φ)) =
      (φ / (2 * π), 1 - ((θ + π / 2) / π)) := by
  have hcos : 0 < Real.cos θ := Real.cos_pos_of_mem_Ioo hθ
  have ha : (0 : ℝ) < 5 * Real.cos θ := by linarith
  have hpos : forwardPos ProjectionMode.Sphere sph θ φ =
      ⟨5 * Real.cos θ * Real.cos φ, 5 * Real.sin θ, 5 * Real.cos θ * Real.sin φ⟩ := by
    simp only [forwardPos, SPHERE_RADIUS]
  rw [hpos, normalize_rev ha]
  have hL : Real.sqrt ((5 * Real.cos θ) ^ 2 + (5 * Real.sin θ) ^ 2) = 5 := by
    have hpyth := Real.sin_sq_add_cos_sq θ
    rw [show (5 * Real.cos θ) ^ 2 + (5 * Real.sin θ) ^ 2 = 5 ^ 2 by nlinarith]
    rw [Real.sqrt_sq (by norm_num)]
  rw [hL]
  have hx : 5 * Real.cos θ * Real.cos φ / 5 = Real.cos θ * Real.cos φ := by ring
  have hy : 5 * Real.sin θ / 5 = Real.sin θ := by ring
  have hz : 5 * Real.cos θ * Real.sin φ / 5 = Real.cos θ * Real.sin φ := by ring
  rw [hx, hy, hz, dirToUV_Sphere_mk]
  rw [rclamp_eq_self (Real.neg_one_le_sin θ) (Real.sin_le_one θ)]
  rw [Real.arcsin_sin (by linarith [hθ.1]) (by linarith [hθ.2])]
  rw [wrapPhi_atan2_recover hcos hφ.1 hφ.2]

theorem roundtrip_sphereClamp (sph : ℝ) {tmax θ φ : ℝ}
    (htm : tmax ∈ Icc (π / 180) (89.9 * π / 180))
    (hθ : θ ∈ Icc (-tmax) tmax) (hφ : φ ∈ Ico 0 (2 * π)) :
    dirToUV_SphereClamp (normalize (forwardPos ProjectionMode.SphereClamp sph θ φ)) tmax =
      some (φ / (2 * π), 1 - ((θ + tmax) / (2 * tmax))) := by
  have hπ := Real.pi_pos
  have htm2 : tmax < π / 2 := by nlinarith [htm.2]
  have hθIoo : θ ∈ Ioo (-(π / 2)) (π / 2) :=
    ⟨by linarith [hθ.1], by linarith [hθ.2]⟩
  have hcos : 0 < Real.cos θ := Real.cos_pos_of_mem_Ioo hθIoo
  have ha : (0 : ℝ) < 5 * Real.cos θ := by linarith
  have hpos : forwardPos ProjectionMode.SphereClamp sph θ φ =
      ⟨5 * Real.cos θ * Real.cos φ, 5 * Real.sin θ, 5 * Real.cos θ * Real.sin φ⟩ := by
    simp only [forwardPos, SPHERE_RADIUS]
  rw [hpos, normalize_rev ha]
  have hL : Real.sqrt ((5 * Real.cos θ) ^ 2 + (5 * Real.sin θ) ^ 2) = 5 := by
    have hpyth := Real.sin_sq_add_cos_sq θ
    rw [show (5 * Real.cos θ) ^ 2 + (5 * Real.sin θ) ^ 2 = 5 ^ 2 by nlinarith]
    rw [Real.sqrt_sq (by norm_num)]
  rw [hL]
  have hx : 5 * Real.cos θ * Real.cos φ / 5 = Real.cos θ * Real.cos φ := by ring
  have hy : 5 * Real.sin θ / 5 = Real.sin θ := by ring
  have hz : 5 * Real.cos θ * Real.sin φ / 5 = Real.cos θ * Real.sin φ := by ring
  rw [hx, hy, hz, dirToUV_SphereClamp_mk]
  rw [rclamp_eq_self (Real.neg_one_le_sin θ) (Real.sin_le_one θ)]
  rw [Real.arcsin_sin (by linarith [hθIoo.1]) (by linarith [hθIoo.2])]
  rw [if_neg (by push_neg; exact ⟨by linarith [hθ.1], by linarith [hθ.2]⟩)]
  rw [wrapPhi_atan2_recover hcos hφ.1 hφ.2]

theorem roundtrip_cylinder (sph : ℝ) {θ φ : ℝ} (hθ : θ ∈ Icc (-(π / 2)) (π / 2))
    (hφ : φ ∈ Ico 0 (2 * π)) :
    dirToUV_Cylinder (normalize (forwardPos ProjectionMode.Cylinder sph θ φ)) =
      some (φ / (2 * π), 1 - ((θ + π / 2) / π)) := by
  have hπ3 := Real.pi_gt_three
  have hπ4 := Real.pi_lt_315
  have ha : (0 : ℝ) < 5 := by norm_num
  have hpos : forwardPos ProjectionMode.Cylinder sph θ φ =
      ⟨5 * Real.cos φ, 5 * θ, 5 * Real.sin φ⟩ := by
    simp only [forwardPos, SPHERE_RADIUS]
  rw [hpos, normalize_rev ha]
  have hθsq : θ ^ 2 ≤ 3 := by nlinarith [hθ.1, hθ.2]
  have hLpos : (0 : ℝ) < Real.sqrt (5 ^ 2 + (5 * θ) ^ 2) :=
    Real.sqrt_pos.2 (by positivity)
  have hL10 : Real.sqrt (5 ^ 2 + (5 * θ) ^ 2) ≤ 10 := by
    have h := Real.sqrt_le_sqrt (show 5 ^ 2 + (5 * θ) ^ 2 ≤ 100 by nlinarith)
    rwa [show (100 : ℝ) = 10 ^ 2 by norm_num, Real.sqrt_sq (by norm_num)] at h
  rw [dirToUV_Cylinder_mk]
  rw [sqrt_xz_div (by norm_num) hLpos]
  have hdxz : ¬ (5 : ℝ) / Real.sqrt (5 ^ 2 + (5 * θ) ^ 2) < 1e-6 := by
    push_neg
    rw [le_div_iff₀ hLpos]
    calc (1e-6 : ℝ) * Real.sqrt (5 ^ 2 + (5 * θ) ^ 2) ≤ 1e-6 * 10 :=
          mul_le_mul_of_nonneg_left hL10 (by norm_num)
      _ ≤ 5 := by norm_num
  rw [if_neg hdxz]
  have ht : SPHERE_RADIUS / ((5 : ℝ) / Real.sqrt (5 ^ 2 + (5 * θ) ^ 2)) =
      Real.sqrt (5 ^ 2 + (5 * θ) ^ 2) := by
    simp only [SPHERE_RADIUS]
    field_simp
  rw [ht]
  have hy : 5 * θ / Real.sqrt (5 ^ 2 + (5 * θ) ^ 2) * Real.sqrt (5 ^ 2 + (5 * θ) ^ 2) /
      SPHERE_RADIUS = θ := by
    simp only [SPHERE_RADIUS]
    field_simp
  rw [hy]
  rw [if_neg (by push_neg; exact ⟨by linarith [hθ.1], by linarith [hθ.2]⟩)]
  have hzz : 5 * Real.sin φ / Real.sqrt (5 ^ 2 + (5 * θ) ^ 2) *
      Real.sqrt (5 ^ 2 + (5 * θ) ^ 2) = 5 * Real.sin φ := by
    field_simp
  have hxx : 5 * Real.cos φ / Real.sqrt (5 ^ 2 + (5 * θ) ^ 2) *
      Real.sqrt (5 ^ 2 + (5 * θ) ^ 2) = 5 * Real.cos φ := by
    field_simp
  rw [hzz, hxx, wrapPhi_atan2_recover (by norm_num : (0:ℝ) < 5) hφ.1 hφ.2]

set_option maxHeartbeats 1600000 in
theorem roundtrip_morph {s θ φ : ℝ} (hs : s ∈ Icc (0 : ℝ) 1)
    (hθ : θ ∈ Ioo (-(π / 2) + 1e-4) (π / 2 - 1e-4)) (hφ : φ ∈ Ico 0 (2 * π)) :
    ∃ v, dirToUV_Morph (normalize (forwardPos ProjectionMode.Morph s θ φ)) s =
        some (φ / (2 * π), v) ∧ |v - (1 - ((θ + π / 2) / π))| ≤ 1e-3 := by
  have hπ3 := Real.pi_gt_three
  have hπ4 := Real.pi_lt_315
  have hθIoo : θ ∈ Ioo (-(π / 2)) (π / 2) := ⟨by linarith [hθ.1], by linarith [hθ.2]⟩
  have hr0 : 0 < morphR s θ := morphR_pos hs hθIoo
  have ha : (0 : ℝ) < 5 * morphR s θ := by linarith
  have hpos : forwardPos ProjectionMode.Morph s θ φ =
      ⟨5 * morphR s θ * Real.cos φ, 5 * morphY s θ, 5 * morphR s θ * Real.sin φ⟩ := by
    simp only [forwardPos, SPHERE_RADIUS, morphR, morphY, Vec3.mk.injEq]
    refine ⟨by ring, by ring, by ring⟩
  rw [hpos, normalize_rev ha]
  set L := Real.sqrt ((5 * morphR s θ) ^ 2 + (5 * morphY s θ) ^ 2) with hLdef
  have hLpos : 0 < L := Real.sqrt_pos.2 (by positivity)
  -- numeric bounds on the generating curve at θ
  have hr0le : morphR s θ ≤ 1 := by
    have := Real.cos_le_one θ
    unfold morphR
    nlinarith [hs.1, hs.2]
  have hy0abs : (morphY s θ) ^ 2 ≤ (π / 2) ^ 2 := by
    have h1 := Real.neg_one_le_sin θ
    have h2 := Real.sin_le_one θ
    have hy1 : morphY s θ ≤ π / 2 := by
      unfold morphY
      nlinarith [hs.1, hs.2, hθIoo.1, hθIoo.2]
    have hy2 : -(π / 2) ≤ morphY s θ := by
      unfold morphY
      nlinarith [hs.1, hs.2, hθIoo.1, hθIoo.2]
    nlinarith
  have hL10 : L ≤ 10 := by
    have h := Real.sqrt_le_sqrt
      (show (5 * morphR s θ) ^ 2 + (5 * morphY s θ) ^ 2 ≤ 100 by nlinarith [hr0])
    rwa [show (100 : ℝ) = 10 ^ 2 by norm_num, Real.sqrt_sq (by norm_num)] at h
  -- lower bound on morphR s θ via sin(1e-4)
  have hm1 : (9.9e-5 : ℝ) < Real.sin 1e-4 := by
    have h := Real.sin_gt_sub_cube (show (0 : ℝ) < 1e-4 by norm_num)
      (show (1e-4 : ℝ) ≤ 1 by norm_num)
    nlinarith
  have hm2 : Real.sin (1e-4 : ℝ) ≤ 1 := Real.sin_le_one _
  have hrm : Real.sin (1e-4 : ℝ) ≤ morphR s θ := by
    have habs : |θ| ≤ π / 2 - 1e-4 := abs_le.2 ⟨by linarith [hθ.1], le_of_lt hθ.2⟩
    have hcc := Real.cos_le_cos_of_nonneg_of_le_pi (abs_nonneg θ)
      (show π / 2 - 1e-4 ≤ π by linarith) habs
    rw [Real.cos_abs] at hcc
    have hcs : Real.cos (π / 2 - 1e-4) = Real.sin 1e-4 := Real.cos_pi_div_two_sub _
    rw [hcs] at hcc
    unfold morphR
    nlinarith [hs.1, hs.2]
  set dxz := 5 * morphR s θ / L with hdxzdef
  have hdxzpos : 0 < dxz := by positivity
  have hdxz6 : ¬ dxz < 1e-6 := by
    push_neg
    rw [hdxzdef, le_div_iff₀ hLpos]
    calc (1e-6 : ℝ) * L ≤ 1e-6 * 10 := mul_le_mul_of_nonneg_left hL10 (by norm_num)
      _ ≤ 5 * Real.sin 1e-4 := by nlinarith
      _ ≤ 5 * morphR s θ := by linarith
  -- sqrt of the horizontal components of the normalized direction
  have hsq : Real.sqrt (5 * morphR s θ * Real.cos φ / L * (5 * morphR s θ * Real.cos φ / L) +
      5 * morphR s θ * Real.sin φ / L * (5 * morphR s θ * Real.sin φ / L)) = dxz :=
    sqrt_xz_div (by linarith) hLpos
  -- θ is the unique root of the solver function for this direction
  have hroot : morphF s (5 * morphY s θ / L) dxz θ = 0 := by
    rw [hdxzdef]
    unfold morphF
    field_simp
    ring
  -- strict sign change at the solver window endpoints
  have hlomem : -(π / 2) + 1e-4 ∈ Ioo (-(π / 2)) (π / 2) := ⟨by linarith, by linarith⟩
  have hhimem : π / 2 - 1e-4 ∈ Ioo (-(π / 2)) (π / 2) := ⟨by linarith, by linarith⟩
  have hrlo : 0 < morphR s (-(π / 2) + 1e-4) := morphR_pos hs hlomem
  have hrhi : 0 < morphR s (π / 2 - 1e-4) := morphR_pos hs hhimem
  have hslo : morphSlope s (-(π / 2) + 1e-4) < morphSlope s θ :=
    morphSlope_strictMonoOn hs hlomem hθIoo hθ.1
  have hshi : morphSlope s θ < morphSlope s (π / 2 - 1e-4) :=
    morphSlope_strictMonoOn hs hθIoo hhimem hθ.2
  have hcrosslo : morphY s (-(π / 2) + 1e-4) * morphR s θ <
      morphY s θ * morphR s (-(π / 2) + 1e-4) := by
    have h := hslo
    unfold morphSlope at h
    exact (div_lt_div_iff hrlo hr0).1 h
  have hcrosshi : morphY s θ * morphR s (π / 2 - 1e-4) <
      morphY s (π / 2 - 1e-4) * morphR s θ := by
    have h := hshi
    unfold morphSlope at h
    exact (div_lt_div_iff hr0 hrhi).1 h
  have hL5 : (0 : ℝ) < 5 / L := by positivity
  have hflopos : 0 < morphF s (5 * morphY s θ / L) dxz (-(π / 2) + 1e-4) := by
    have heq : morphF s (5 * morphY s θ / L) dxz (-(π / 2) + 1e-4) =
        5 / L * (morphY s θ * morphR s (-(π / 2) + 1e-4) -
          morphY s (-(π / 2) + 1e-4) * morphR s θ) := by
      rw [hdxzdef]
      unfold morphF
      ring
    rw [heq]
    exact mul_pos hL5 (sub_pos.2 hcrosslo)
  have hfhineg : morphF s (5 * morphY s θ / L) dxz (π / 2 - 1e-4) < 0 := by
    have heq : morphF s (5 * morphY s θ / L) dxz (π / 2 - 1e-4) =
        5 / L * (morphY s θ * morphR s (π / 2 - 1e-4) -
          morphY s (π / 2 - 1e-4) * morphR s θ) := by
      rw [hdxzdef]
      unfold morphF
      ring
    rw [heq]
    exact mul_neg_of_pos_of_neg hL5 (sub_neg.2 hcrosshi)
  have hsign : morphF s (5 * morphY s θ / L) dxz (-(π / 2) + 1e-4) *
      morphF s (5 * morphY s θ / L) dxz (π / 2 - 1e-4) < 0 :=
    mul_neg_of_pos_of_neg hflopos hfhineg
  obtain ⟨θmid, hsome, hnear⟩ := dirToUV_Morph_near
    ⟨5 * morphR s θ * Real.cos φ / L, 5 * morphY s θ / L, 5 * morphR s θ * Real.sin φ / L⟩
    s hs (by rw [show Real.sqrt (5 * morphR s θ * Real.cos φ / L *
        (5 * morphR s θ * Real.cos φ / L) + 5 * morphR s θ * Real.sin φ / L *
        (5 * morphR s θ * Real.sin φ / L)) = dxz from hsq]; exact hdxz6)
    hθIoo
    (by rw [show Real.sqrt (5 * morphR s θ * Real.cos φ / L *
        (5 * morphR s θ * Real.cos φ / L) + 5 * morphR s θ * Real.sin φ / L *
        (5 * morphR s θ * Real.sin φ / L)) = dxz from hsq]; exact hroot)
    (by rw [show Real.sqrt (5 * morphR s θ * Real.cos φ / L *
        (5 * morphR s θ * Real.cos φ / L) + 5 * morphR s θ * Real.sin φ / L *
        (5 * morphR s θ * Real.sin φ / L)) = dxz from hsq]; exact hsign)
  refine ⟨1 - ((θmid + π / 2) / π), ?_, ?_⟩
  · rw [hsome]
    have hphix : 5 * morphR s θ * Real.cos φ / L = dxz * Real.cos φ := by
      rw [hdxzdef]; ring
    have hphiz : 5 * morphR s θ * Real.sin φ / L = dxz * Real.sin φ := by
      rw [hdxzdef]; ring
    show some (wrapPhi (atan2 (5 * morphR s θ * Real.sin φ / L)
        (5 * morphR s θ * Real.cos φ / L)) / (2 * π), 1 - ((θmid + π / 2) / π)) = _
    rw [hphix, hphiz, wrapPhi_atan2_recover hdxzpos hφ.1 hφ.2]
  · have hv : 1 - ((θmid + π / 2) / π) - (1 - ((θ + π / 2) / π)) = (θ - θmid) / π := by
      field_simp
      ring
    rw [hv, abs_div, abs_of_pos (by linarith : (0 : ℝ) < π), abs_sub_comm]
    have hπpos : (0 : ℝ) < π := by linarith
    have h1 : |θmid - θ| / π ≤ (π / 2 ^ 40) / π := (div_le_div_right hπpos).2 hnear
    have h2 : (π / 2 ^ 40) / π = 1 / 2 ^ 40 := by
      field_simp
      ring
    calc |θmid - θ| / π ≤ (π / 2 ^ 40) / π := h1
      _ = 1 / 2 ^ 40 := h2
      _ ≤ 1e-3 := by norm_num

/-- Claim C1: for every projection mode and every (theta, phi) in the mode's
valid domain (azimuth in [0, 2*pi); ring angle in the mode's mesh range with
the degenerate sphere poles excluded and, for Morph, the root-solver window),
composing the forward parameterization, treating the position as a ray from
the origin (normalized as in the code), and applying the mode's inverse
mapping reproduces the forward (u, v) within 1e-3. -/
theorem claim_C1 (m : ProjectionMode) (sph tmax θ φ : ℝ)
    (hs : sph ∈ Icc (0 : ℝ) 1) (htm : tmax ∈ Icc (π / 180) (89.9 * π / 180))
    (hdom : validDomain m tmax θ φ) :
    ∃ u v, rayToUV m sph tmax (normalize (forwardPos m sph θ φ)) = some (u, v) ∧
      |u - forwardU φ| ≤ 1e-3 ∧ |v - forwardV m tmax θ| ≤ 1e-3 := by
  have hπ := Real.pi_gt_three
  cases m with
  | Sphere =>
      obtain ⟨hφ, hθ⟩ := hdom
      refine ⟨φ / (2 * π), 1 - ((θ + π / 2) / π), ?_, ?_, ?_⟩
      · simp only [rayToUV]
        rw [roundtrip_sphere sph hθ hφ]
      · simp only [forwardU, sub_self, abs_zero]
        norm_num
      · simp only [forwardV, sub_self, abs_zero]
        norm_num
  | SphereClamp =>
      obtain ⟨hφ, hθ⟩ := hdom
      have htmlo : (0.01 : ℝ) ≤ tmax := by
        have := htm.1
        nlinarith
      have htmhi : tmax ≤ π / 2 - 0.001 := by
        have := htm.2
        nlinarith
      refine ⟨φ / (2 * π), 1 - ((θ + tmax) / (2 * tmax)), ?_, ?_, ?_⟩
      · simp only [rayToUV]
        rw [roundtrip_sphereClamp sph htm hθ hφ]
      · simp only [forwardU, sub_self, abs_zero]
        norm_num
      · simp only [forwardV]
        rw [rclamp_eq_self htmlo htmhi]
        simp only [sub_self, abs_zero]
        norm_num
  | Cylinder =>
      obtain ⟨hφ, hθ⟩ := hdom
      refine ⟨φ / (2 * π), 1 - ((θ + π / 2) / π), ?_, ?_, ?_⟩
      · simp only [rayToUV]
        rw [roundtrip_cylinder sph hθ hφ]
      · simp only [forwardU, sub_self, abs_zero]
        norm_num
      · simp only [forwardV, sub_self, abs_zero]
        norm_num
  | Morph =>
      obtain ⟨hφ, hθ⟩ := hdom
      obtain ⟨v, hsome, hv⟩ := roundtrip_morph hs hθ hφ
      refine ⟨φ / (2 * π), v, ?_, ?_, ?_⟩
      · simp only [rayToUV]
        exact hsome
      · simp only [forwardU, sub_self, abs_zero]
        norm_num
      · simp only [forwardV]
        exact hv

/-- Witness for C1 in Sphere mode at sphericity 1, tmax = pi/4, theta = 0,
phi = 0. -/
theorem claim_C1_witness :
    ∃ u v, rayToUV ProjectionMode.Sphere 1 (π / 4)
        (normalize (forwardPos ProjectionMode.Sphere 1 0 0)) = some (u, v) ∧
      |u - forwardU 0| ≤ 1e-3 ∧ |v - forwardV ProjectionMode.Sphere (π / 4) 0| ≤ 1e-3 := by
  have hπ := Real.pi_gt_three
  have hπ2 := Real.pi_lt_315
  exact claim_C1 ProjectionMode.Sphere 1 (π / 4) 0 0 ⟨by norm_num, by norm_num⟩
    ⟨by nlinarith, by nlinarith⟩
    ⟨⟨le_refl 0, by nlinarith⟩, by nlinarith, by nlinarith⟩

/-- Claim C3: at sphericity 1 the Morph forward position and texture
coordinates coincide exactly with Sphere's, and at sphericity 0 with
Cylinder's; the Morph inverse agrees with the Sphere inverse at sphericity 1
and with the Cylinder inverse at sphericity 0 within 1e-3 (u exactly equal),
for every direction both modes resolve (dxz at least 1e-6 and a strict sign
change in the Morph solver window; unit length where the Sphere inverse's
asin requires it). -/
theorem claim_C3 :
    (∀ θ φ : ℝ, forwardPos ProjectionMode.Morph 1 θ φ =
        forwardPos ProjectionMode.Sphere 1 θ φ) ∧
    (∀ tmax θ : ℝ, forwardV ProjectionMode.Morph tmax θ =
        forwardV ProjectionMode.Sphere tmax θ) ∧
    (∀ θ φ : ℝ, forwardPos ProjectionMode.Morph 0 θ φ =
        forwardPos ProjectionMode.Cylinder 0 θ φ) ∧
    (∀ tmax θ : ℝ, forwardV ProjectionMode.Morph tmax θ =
        forwardV ProjectionMode.Cylinder tmax θ) ∧
    (∀ d : Vec3, d.x * d.x + d.y * d.y + d.z * d.z = 1 →
      ¬ Real.sqrt (d.x * d.x + d.z * d.z) < 1e-6 →
      morphF 1 d.y (Real.sqrt (d.x * d.x + d.z * d.z)) (-(π / 2) + 1e-4) *
          morphF 1 d.y (Real.sqrt (d.x * d.x + d.z * d.z)) (π / 2 - 1e-4) < 0 →
      ∃ v, dirToUV_Morph d 1 = some ((dirToUV_Sphere d).1, v) ∧
        |v - (dirToUV_Sphere d).2| ≤ 1e-3) ∧
    (∀ d : Vec3,
      ¬ Real.sqrt (d.x * d.x + d.z * d.z) < 1e-6 →
      morphF 0 d.y (Real.sqrt (d.x * d.x + d.z * d.z)) (-(π / 2) + 1e-4) *
          morphF 0 d.y (Real.sqrt (d.x * d.x + d.z * d.z)) (π / 2 - 1e-4) < 0 →
      ∃ u v v', dirToUV_Morph d 0 = some (u, v) ∧ dirToUV_Cylinder d = some (u, v') ∧
        |v - v'| ≤ 1e-3) := by
  have hπ3 := Real.pi_gt_three
  refine ⟨?_, ?_, ?_, ?_, ?_, ?_⟩
  · intro θ φ
    simp only [forwardPos, Vec3.mk.injEq]
    refine ⟨by ring, by ring, by ring⟩
  · intro tmax θ
    rfl
  · intro θ φ
    simp only [forwardPos, Vec3.mk.injEq]
    refine ⟨by ring, by ring, by ring⟩
  · intro tmax θ
    rfl
  · intro d hunit h6 hsign
    have hdxzpos : (0 : ℝ) < Real.sqrt (d.x * d.x + d.z * d.z) :=
      lt_of_lt_of_le (by norm_num) (not_lt.1 h6)
    have hdxzsq : Real.sqrt (d.x * d.x + d.z * d.z) ^ 2 = d.x * d.x + d.z * d.z :=
      Real.sq_sqrt (by nlinarith [mul_self_nonneg d.x, mul_self_nonneg d.z])
    have hdy2 : d.y ^ 2 < 1 := by nlinarith
    have hdylt : d.y < 1 := by nlinarith
    have hdygt : -1 < d.y := by nlinarith
    have hθmem : Real.arcsin d.y ∈ Ioo (-(π / 2)) (π / 2) :=
      ⟨Real.neg_pi_div_two_lt_arcsin.2 hdygt, Real.arcsin_lt_pi_div_two.2 hdylt⟩
    have hdxzeq : Real.sqrt (d.x * d.x + d.z * d.z) = Real.sqrt (1 - d.y ^ 2) := by
      rw [show d.x * d.x + d.z * d.z = 1 - d.y ^ 2 by nlinarith]
    have hcosa : Real.cos (Real.arcsin d.y) = Real.sqrt (d.x * d.x + d.z * d.z) := by
      rw [Real.cos_arcsin, hdxzeq]
    have hsina : Real.sin (Real.arcsin d.y) = d.y :=
      Real.sin_arcsin (le_of_lt hdygt) (le_of_lt hdylt)
    have hroot : morphF 1 d.y (Real.sqrt (d.x * d.x + d.z * d.z)) (Real.arcsin d.y) = 0 := by
      unfold morphF morphR morphY
      rw [hcosa, hsina]
      ring
    obtain ⟨θmid, hsome, hnear⟩ := dirToUV_Morph_near d 1
      ⟨by norm_num, by norm_num⟩ h6 hθmem hroot hsign
    have hfst : (dirToUV_Sphere d).1 = wrapPhi (atan2 d.z d.x) / (2 * π) := rfl
    have hsnd : (dirToUV_Sphere d).2 =
        1 - ((Real.arcsin (rclamp d.y (-1) 1) + π / 2) / π) := rfl
    refine ⟨1 - ((θmid + π / 2) / π), ?_, ?_⟩
    · rw [hsome, hfst]
    · rw [hsnd, rclamp_eq_self (le_of_lt hdygt) (le_of_lt hdylt)]
      have hv : 1 - ((θmid + π / 2) / π) - (1 - ((Real.arcsin d.y + π / 2) / π)) =
          (Real.arcsin d.y - θmid) / π := by
        field_simp
        ring
      rw [hv, abs_div, abs_of_pos (by linarith : (0 : ℝ) < π), abs_sub_comm]
      have h1 : |θmid - Real.arcsin d.y| / π ≤ (π / 2 ^ 40) / π :=
        (div_le_div_right (by linarith)).2 hnear
      have h2 : (π / 2 ^ 40) / π = 1 / 2 ^ 40 := by
        field_simp
        ring
      calc |θmid - Real.arcsin d.y| / π ≤ (π / 2 ^ 40) / π := h1
        _ = 1 / 2 ^ 40 := h2
        _ ≤ 1e-3 := by norm_num
  · intro d h6 hsign
    have hdxzpos : (0 : ℝ) < Real.sqrt (d.x * d.x + d.z * d.z) :=
      lt_of_lt_of_le (by norm_num) (not_lt.1 h6)
    have hf : ∀ t : ℝ, morphF 0 d.y (Real.sqrt (d.x * d.x + d.z * d.z)) t =
        d.y - Real.sqrt (d.x * d.x + d.z * d.z) * t := by
      intro t
      unfold morphF morphR morphY
      ring
    have hsign' : (d.y - Real.sqrt (d.x * d.x + d.z * d.z) * (-(π / 2) + 1e-4)) *
        (d.y - Real.sqrt (d.x * d.x + d.z * d.z) * (π / 2 - 1e-4)) < 0 := by
      rw [← hf, ← hf]
      exact hsign
    have hwin : -(π / 2) + 1e-4 < π / 2 - 1e-4 := by linarith
    have hθwin : d.y / Real.sqrt (d.x * d.x + d.z * d.z) ∈
        Ioo (-(π / 2) + 1e-4) (π / 2 - 1e-4) := by
      rcases mul_neg_iff.1 hsign' with ⟨hA, hB⟩ | ⟨hA, hB⟩
      · constructor
        · rw [lt_div_iff hdxzpos]
          nlinarith
        · rw [div_lt_iff hdxzpos]
          nlinarith
      · exfalso
        nlinarith
    have hθmem : d.y / Real.sqrt (d.x * d.x + d.z * d.z) ∈ Ioo (-(π / 2)) (π / 2) :=
      ⟨by linarith [hθwin.1], by linarith [hθwin.2]⟩
    have hroot : morphF 0 d.y (Real.sqrt (d.x * d.x + d.z * d.z))
        (d.y / Real.sqrt (d.x * d.x + d.z * d.z)) = 0 := by
      rw [hf]
      field_simp
    obtain ⟨θmid, hsome, hnear⟩ := dirToUV_Morph_near d 0
      ⟨le_refl 0, by norm_num⟩ h6 hθmem hroot hsign
    have hcyl : dirToUV_Cylinder d =
        some (wrapPhi (atan2 d.z d.x) / (2 * π),
          1 - ((d.y / Real.sqrt (d.x * d.x + d.z * d.z) + π / 2) / π)) := by
      rcases d with ⟨dx, dy, dz⟩
      rw [dirToUV_Cylinder_mk]
      rw [if_neg h6]
      have hty : dy * (SPHERE_RADIUS / Real.sqrt (dx * dx + dz * dz)) / SPHERE_RADIUS =
          dy / Real.sqrt (dx * dx + dz * dz) := by
        simp only [SPHERE_RADIUS]
        field_simp
        ring
      rw [hty]
      rw [if_neg (by push_neg; constructor <;> [linarith [hθmem.1]; linarith [hθmem.2]])]
      have htpos : (0 : ℝ) < SPHERE_RADIUS / Real.sqrt (dx * dx + dz * dz) := by
        simp only [SPHERE_RADIUS]
        positivity
      rw [atan2_pos_scale htpos]
    refine ⟨wrapPhi (atan2 d.z d.x) / (2 * π), 1 - ((θmid + π / 2) / π),
      1 - ((d.y / Real.sqrt (d.x * d.x + d.z * d.z) + π / 2) / π), hsome, hcyl, ?_⟩
    have hv : 1 - ((θmid + π / 2) / π) -
        (1 - ((d.y / Real.sqrt (d.x * d.x + d.z * d.z) + π / 2) / π)) =
        (d.y / Real.sqrt (d.x * d.x + d.z * d.z) - θmid) / π := by
      field_simp
      ring
    rw [hv, abs_div, abs_of_pos (by linarith : (0 : ℝ) < π), abs_sub_comm]
    have h1 : |θmid - d.y / Real.sqrt (d.x * d.x + d.z * d.z)| / π ≤ (π / 2 ^ 40) / π :=
      (div_le_div_right (by linarith)).2 hnear
    have h2 : (π / 2 ^ 40) / π = 1 / 2 ^ 40 := by
      field_simp
      ring
    calc |θmid - d.y / Real.sqrt (d.x * d.x + d.z * d.z)| / π ≤ (π / 2 ^ 40) / π := h1
      _ = 1 / 2 ^ 40 := h2
      _ ≤ 1e-3 := by norm_num

/-- Witness for C3 at direction (1,0,0) (and forward agreement at the
origin angles). -/
theorem claim_C3_witness :
    (forwardPos ProjectionMode.Morph 1 0 0 = forwardPos ProjectionMode.Sphere 1 0 0) ∧
    (∃ v, dirToUV_Morph ⟨1, 0, 0⟩ 1 = some ((dirToUV_Sphere ⟨1, 0, 0⟩).1, v) ∧
      |v - (dirToUV_Sphere ⟨1, 0, 0⟩).2| ≤ 1e-3) ∧
    (∃ u v v', dirToUV_Morph ⟨1, 0, 0⟩ 0 = some (u, v) ∧
      dirToUV_Cylinder ⟨1, 0, 0⟩ = some (u, v') ∧ |v - v'| ≤ 1e-3) := by
  have hπ3 := Real.pi_gt_three
  have hπ4 := Real.pi_lt_315
  have hsqrt : Real.sqrt ((1 : ℝ) * 1 + 0 * 0) = 1 := by
    rw [show (1 : ℝ) * 1 + 0 * 0 = 1 by norm_num, Real.sqrt_one]
  have h6 : ¬ Real.sqrt ((1 : ℝ) * 1 + 0 * 0) < 1e-6 := by
    rw [hsqrt]
    norm_num
  have hsinpos : 0 < Real.sin (π / 2 - 1e-4) :=
    Real.sin_pos_of_pos_of_lt_pi (by linarith) (by linarith)
  have hft1 : ∀ t : ℝ, morphF 1 0 1 t = -Real.sin t := by
    intro t
    unfold morphF morphR morphY
    ring
  have hft0 : ∀ t : ℝ, morphF 0 0 1 t = -t := by
    intro t
    unfold morphF morphR morphY
    ring
  have hsign1 : morphF 1 0 (Real.sqrt ((1 : ℝ) * 1 + 0 * 0)) (-(π / 2) + 1e-4) *
      morphF 1 0 (Real.sqrt ((1 : ℝ) * 1 + 0 * 0)) (π / 2 - 1e-4) < 0 := by
    rw [hsqrt, hft1, hft1]
    rw [show -(π / 2) + 1e-4 = -(π / 2 - 1e-4) by ring, Real.sin_neg]
    nlinarith
  have hsign0 : morphF 0 0 (Real.sqrt ((1 : ℝ) * 1 + 0 * 0)) (-(π / 2) + 1e-4) *
      morphF 0 0 (Real.sqrt ((1 : ℝ) * 1 + 0 * 0)) (π / 2 - 1e-4) < 0 := by
    rw [hsqrt, hft0, hft0]
    nlinarith
  refine ⟨claim_C3.1 0 0, ?_, ?_⟩
  · exact claim_C3.2.2.2.2.1 ⟨1, 0, 0⟩ (by norm_num) h6 hsign1
  · exact claim_C3.2.2.2.2.2 ⟨1, 0, 0⟩ h6 hsign0

end SphericalMonitor
